import Mathlib

/-!
Verification of the metadata-reconciliation layer (`metadata_layer.py`,
`model/edition.py`, `model/measurement.py`) of the `server_core` repository.

Python values are embedded as follows: nullable strings become
`Option String`, nullable numbers become `Option Int` or `Option ℚ`,
floats become `ℚ`, timestamps become `Option Int`, and Python truthiness
of a nullable string / number is made explicit through the `truthy*`
helpers below.  Fallible operations return `Except String`.
-/

namespace ServerCore

/-- Python truthiness of an optional string: `None` and `""` are falsy. -/
def truthyS : Option String → Bool
  | none => false
  | some s => !s.isEmpty

/-- Python truthiness of an optional rational: `None` and `0` are falsy. -/
def truthyQ : Option ℚ → Bool
  | none => false
  | some q => q != 0

/-- Python `a or b` for optional strings: keep `a` when truthy, else `b`. -/
def orElseS (a : Option String) (b : Option String) : Option String :=
  if truthyS a then a else b

/-! ## Constants

The constant tables below that live outside `src/` (data-source names,
link relations, rights statuses, media types, DRM schemes) are modelled
from the spec; the concrete URI strings are irrelevant to every claim,
only their distinctness and set membership matter. -/

namespace DataSourceConstants

def OVERDRIVE : String := "Overdrive"
def AMAZON : String := "Amazon"
def CONTENT_CAFE : String := "Content Cafe"
def GUTENBERG : String := "Gutenberg"
def UNGLUE_IT : String := "unglue.it"
def NOVELIST : String := "NoveList Select"
def LIBRARY_STAFF : String := "Library staff"
def METADATA_WRANGLER : String := "Library Simplified metadata wrangler"

end DataSourceConstants

namespace Measurement

def POPULARITY : String := "http://librarysimplified.org/terms/rel/popularity"
def QUALITY : String := "http://librarysimplified.org/terms/rel/quality"
def RATING : String := "http://schema.org/ratingValue"
def DOWNLOADS : String := "https://schema.org/UserDownloads"

/-- The Overdrive popularity percentile table, transcribed from
`Measurement.POPULARITY_PERCENTILES` in `model/measurement.py`. -/
def overdrivePercentiles : List ℚ :=
  [1, 1, 1, 2, 2, 2, 3, 3, 4, 4, 5, 5, 6, 6, 7, 7, 8, 9, 9, 10, 10, 11, 12,
   13, 14, 15, 15, 16, 18, 19, 20, 21, 22, 24, 25, 26, 28, 30, 31, 33, 35,
   37, 39, 41, 43, 46, 48, 51, 53, 56, 59, 63, 66, 70, 74, 78, 82, 87, 92,
   97, 102, 108, 115, 121, 128, 135, 142, 150, 159, 168, 179, 190, 202, 216,
   230, 245, 260, 277, 297, 319, 346, 372, 402, 436, 478, 521, 575, 632, 702,
   777, 861, 965, 1100, 1248, 1428, 1665, 2020, 2560, 3535, 5805]

/-- The Amazon popularity percentile table from `model/measurement.py`. -/
def amazonPercentiles : List ℚ :=
  [14937330, 1974074, 1702163, 1553600, 1432635, 1327323, 1251089, 1184878,
   1131998, 1075720, 1024272, 978514, 937726, 898606, 868506, 837523, 799879,
   770211, 743194, 718052, 693932, 668030, 647121, 627642, 609399, 591843,
   575970, 559942, 540713, 524397, 511183, 497576, 483884, 470850, 458438,
   444475, 432528, 420088, 408785, 398420, 387895, 377244, 366837, 355406,
   344288, 333747, 324280, 315002, 305918, 296420, 288522, 279185, 270824,
   262801, 253865, 246224, 238239, 230537, 222611, 215989, 208641, 202597,
   195817, 188939, 181095, 173967, 166058, 160032, 153526, 146706, 139981,
   133348, 126689, 119201, 112447, 106795, 101250, 96534, 91052, 85837,
   80619, 75292, 69957, 65075, 59901, 55616, 51624, 47598, 43645, 39403,
   35645, 31795, 27990, 24496, 20780, 17740, 14102, 10498, 7090, 3861]

/-- The Content Cafe popularity percentile table from `model/measurement.py`. -/
def contentCafePercentiles : List ℚ :=
  [0, 1, 1, 1, 1, 1, 1, 1, 1, 1, 1, 1, 1, 1, 1, 1, 1, 1, 1, 1, 1, 1, 1, 1,
   1, 1, 1, 1, 1, 1, 1, 1, 1, 1, 1, 1, 1, 1, 1, 1, 1, 1, 1, 1, 1, 1, 1, 1,
   2, 2, 2, 2, 2, 2, 2, 2, 2, 2, 2, 2, 2, 2, 2, 2, 2, 2, 2, 2, 3, 3, 3, 3,
   3, 3, 3, 3, 3, 4, 4, 4, 4, 4, 4, 5, 5, 5, 5, 6, 6, 7, 8, 9, 10, 11, 14,
   18, 25, 41, 125, 387]

/-- The Gutenberg download-count percentile table from `model/measurement.py`. -/
def gutenbergDownloadPercentiles : List ℚ :=
  [0, 1, 2, 3, 4, 5, 5, 6, 7, 7, 8, 8, 9, 9, 10, 10, 11, 12, 12, 12, 13, 14,
   14, 15, 15, 16, 16, 17, 18, 18, 19, 19, 20, 21, 21, 22, 23, 23, 24, 25,
   26, 27, 28, 28, 29, 30, 32, 33, 34, 35, 36, 37, 38, 40, 41, 43, 45, 46,
   48, 50, 52, 55, 57, 60, 62, 65, 69, 72, 76, 79, 83, 87, 93, 99, 106, 114,
   122, 130, 140, 152, 163, 179, 197, 220, 251, 281, 317, 367, 432, 501, 597,
   658, 718, 801, 939, 1065, 1286, 1668, 2291, 4139]

/-- `Measurement.POPULARITY_PERCENTILES` as a partial map from data source
name to percentile table. -/
def POPULARITY_PERCENTILES (source : String) : Option (List ℚ) :=
  if source = DataSourceConstants.OVERDRIVE then some overdrivePercentiles
  else if source = DataSourceConstants.AMAZON then some amazonPercentiles
  else if source = DataSourceConstants.CONTENT_CAFE then some contentCafePercentiles
  else none

/-- `Measurement.DOWNLOAD_PERCENTILES` as a partial map. -/
def DOWNLOAD_PERCENTILES (source : String) : Option (List ℚ) :=
  if source = DataSourceConstants.GUTENBERG then some gutenbergDownloadPercentiles
  else none

/-- `Measurement.RATING_SCALES` as a partial map from data source name to
the `[min, max]` rating scale. -/
def RATING_SCALES (source : String) : Option (ℚ × ℚ) :=
  if source = DataSourceConstants.OVERDRIVE then some (1, 5)
  else if source = DataSourceConstants.AMAZON then some (1, 5)
  else if source = DataSourceConstants.UNGLUE_IT then some (1, 5)
  else if source = DataSourceConstants.NOVELIST then some (0, 5)
  else if source = DataSourceConstants.LIBRARY_STAFF then some (1, 5)
  else none

end Measurement

/-- One persisted measurement row: the fields of the `Measurement` model
that `normalized_value`, `_average_normalized_value` and `overall_quality`
read.  `normalizedValueCol` is the persisted `_normalized_value` column
(the cache), `value` the raw measured value. -/
structure Measurement where
  dataSourceName : String
  quantityMeasured : String
  value : Option ℚ
  weight : ℚ
  normalizedValueCol : Option ℚ
deriving DecidableEq, Repr

namespace Measurement

/-- `bisect.bisect_left` of the Python standard library, by its defining
property on a sorted list: the leftmost insertion index, i.e. the number
of entries strictly below the probe.  (The tables this is applied to are
monotonically nondecreasing.) -/
def bisectLeft (d : List ℚ) (v : ℚ) : Nat :=
  d.countP (fun x => x < v)

/-- `Measurement.normalized_value` from `model/measurement.py`, as the pure
value the property returns.  The Python property also caches the computed
value in `_normalized_value`; the returned value is what every caller
consumes.  Branch order and the truthiness tests (`if self._normalized_value`,
`elif not self.value`) are kept exactly. -/
def normalized_value (m : Measurement) : Option ℚ :=
  if truthyQ m.normalizedValueCol then m.normalizedValueCol
  else if !truthyQ m.value then none
  else if m.quantityMeasured = POPULARITY
          ∧ (POPULARITY_PERCENTILES m.dataSourceName).isSome then
    match POPULARITY_PERCENTILES m.dataSourceName, m.value with
    | some d, some v => some ((bisectLeft d v : ℚ) * (1 / 100))
    | _, _ => none
  else if m.quantityMeasured = DOWNLOADS
          ∧ (DOWNLOAD_PERCENTILES m.dataSourceName).isSome then
    match DOWNLOAD_PERCENTILES m.dataSourceName, m.value with
    | some d, some v => some ((bisectLeft d v : ℚ) * (1 / 100))
    | _, _ => none
  else if (RATING_SCALES m.dataSourceName).isSome
          ∧ m.quantityMeasured = RATING then
    match RATING_SCALES m.dataSourceName, m.value with
    | some (lo, hi), some v => some ((v - lo) / (hi - lo))
    | _, _ => none
  else if m.dataSourceName = DataSourceConstants.METADATA_WRANGLER then
    m.value
  else
    m.normalizedValueCol

/-- `Measurement._average_normalized_value`: the weight-weighted mean of
the normalized values, skipping measurements that fail to normalize;
`None` when the surviving weights sum to zero (Python truthiness of
`num_measurements`). -/
def averageNormalizedValue (ms : List Measurement) : Option ℚ :=
  let step := fun (acc : ℚ × ℚ) (m : Measurement) =>
    match normalized_value m with
    | none => acc
    | some v => (acc.1 + m.weight, acc.2 + v * m.weight)
  let r := ms.foldl step (0, 0)
  if r.1 ≠ 0 then some (r.2 / r.1) else none

/-- The branch structure of `Measurement.overall_quality` after the three
category averages have been taken: the exhaustive `is None` case analysis,
the two-of-three fall-through, and the final truthiness test `if quality:`
from `model/measurement.py`, translated branch for branch. -/
def overallQualityFromAverages (popularity rating quality : Option ℚ)
    (popularityWeight ratingWeight defaultValue : ℚ) : ℚ :=
  match popularity, rating, quality with
  | none, none, none => defaultValue
  | some p, none, none => p
  | none, some r, none => r
  | none, none, some q => q
  | _, _, _ =>
    let final :=
      match popularity, rating with
      | none, _ => rating.getD 0
      | some p, none => p
      | some p, some r => p * popularityWeight + r * ratingWeight
    match quality with
    | some q => if q ≠ 0 then final / 2 + q / 2 else final
    | none => final

/-- `Measurement.overall_quality` from `model/measurement.py`: validate the
weights, split the measurements into the popularity/downloads, rating and
quality categories, average each category, then combine the averages. -/
def overall_quality (ms : List Measurement) (popularityWeight : ℚ := 3 / 10)
    (ratingWeight : ℚ := 7 / 10) (defaultValue : ℚ := 0) : Except String ℚ :=
  if popularityWeight + ratingWeight ≠ 1 then
    .error "Popularity weight and rating weight must sum to 1!"
  else
    .ok (overallQualityFromAverages
      (averageNormalizedValue (ms.filter
        (fun m => m.quantityMeasured = POPULARITY ∨ m.quantityMeasured = DOWNLOADS)))
      (averageNormalizedValue (ms.filter (fun m => m.quantityMeasured = RATING)))
      (averageNormalizedValue (ms.filter (fun m => m.quantityMeasured = QUALITY)))
      popularityWeight ratingWeight defaultValue)

/-- The amended description of `overall_quality`, following the spec's
words with the one correction the code forces: use the single present
category alone; blend popularity and rating by the given weights when both
are present; fold the result 50/50 with the quality average only when that
average is present and nonzero (Python `if quality:`). -/
def overallQualityDescribed (p r q : Option ℚ) (pw rw dv : ℚ) : ℚ :=
  match p, r, q with
  | none, none, some qv => qv
  | _, _, _ =>
    let base : ℚ :=
      match p, r with
      | none, none => dv
      | some pv, none => pv
      | none, some rv => rv
      | some pv, some rv => pv * pw + rv * rw
    match q with
    | none => base
    | some qv => if qv ≠ 0 then base / 2 + qv / 2 else base

/-- A list is nondecreasing: each entry is at most the next one. -/
def isNondecreasing : List ℚ → Bool
  | [] => true
  | [_] => true
  | x :: y :: rest => decide (x ≤ y) && isNondecreasing (y :: rest)

/-- A pre-normalized popularity measurement from the metadata wrangler
whose normalized value is `1`. -/
def cexPopularityMeasurement : Measurement :=
  { dataSourceName := DataSourceConstants.METADATA_WRANGLER,
    quantityMeasured := Measurement.POPULARITY,
    value := some 1, weight := 1, normalizedValueCol := none }

/-- A quality measurement whose persisted normalized value is `0`. -/
def cexQualityMeasurement : Measurement :=
  { dataSourceName := DataSourceConstants.OVERDRIVE,
    quantityMeasured := Measurement.QUALITY,
    value := some 5, weight := 1, normalizedValueCol := some 0 }

end Measurement

/-! ## Contributors (`metadata_layer.py`: `ContributorData`, and the
contributor portion of `Metadata`) -/

/-- The value-object `ContributorData` of `metadata_layer.py`.  Aliases are
lists of optional strings because `ContributorData.apply` can append the
(possibly null) incoming `sort_name` to a destination alias list.  `extra`
is the open mapping, as an association list with distinct keys. -/
structure ContributorData where
  sort_name : Option String := none
  display_name : Option String := none
  family_name : Option String := none
  wikipedia_name : Option String := none
  biography : Option String := none
  lc : Option String := none
  viaf : Option String := none
  roles : List String := ["Author"]
  aliases : List (Option String) := []
  extra : List (String × String) := []
deriving DecidableEq, Repr

/-- The destination of `ContributorData.apply`: the fields of the
persistent `Contributor` that `apply` reads and writes. -/
structure Contributor where
  sort_name : Option String := none
  display_name : Option String := none
  family_name : Option String := none
  wikipedia_name : Option String := none
  biography : Option String := none
  lc : Option String := none
  viaf : Option String := none
  aliases : List (Option String) := []
  extra : List (String × String) := []
deriving DecidableEq, Repr

/-- Does the association list have an entry with this key
(Python `k in dict`)? -/
def assocHasKey (l : List (String × String)) (k : String) : Bool :=
  l.any (fun p => p.1 == k)

/-- The `for k, v in self.extra.items(): if not k in destination.extra:
destination.extra[k] = v` loop of `ContributorData.apply`: add every
incoming entry whose key is not yet present; never overwrite. -/
def extraMerge (dextra : List (String × String))
    (sextra : List (String × String)) : List (String × String) :=
  sextra.foldl (fun d p => if assocHasKey d p.1 then d else d ++ [p]) dextra

/-- The alias loop of `ContributorData.apply`: for each name in
`[self.sort_name] + self.aliases`, append it to the accumulated list (and
raise the flag) when it differs from the destination's (merged) sort name
and is not among the destination's original aliases. -/
def addAliases (destSortName : Option String) (existing : List (Option String)) :
    List (Option String) → List (Option String) × Bool
      → List (Option String) × Bool
  | [], acc => acc
  | name :: rest, acc =>
    if name ≠ destSortName ∧ ¬ name ∈ existing then
      addAliases destSortName existing rest (acc.1 ++ [name], true)
    else
      addAliases destSortName existing rest acc

/-- One guarded scalar merge of `ContributorData.apply`: overwrite only
when the incoming value is truthy and differs; report whether it wrote. -/
def mergeField (incoming current : Option String) : Option String × Bool :=
  if truthyS incoming ∧ incoming ≠ current then (incoming, true)
  else (current, false)

/-- `ContributorData.apply` from `metadata_layer.py` (lines 209-270):
merge this record into the destination contributor, returning the updated
destination and the `made_changes` flag.  The guarded writes, the alias
loop (with its membership set frozen before the loop), the `extra` loop
(which never raises the flag), and the per-field truthiness guards follow
the source statement for statement. -/
def ContributorData.apply (self : ContributorData) (dest : Contributor) :
    Contributor × Bool :=
  let s1 := mergeField self.sort_name dest.sort_name
  let dest1 : Contributor := { dest with sort_name := s1.1 }
  let mc1 := s1.2
  let r := addAliases dest1.sort_name dest.aliases
    (self.sort_name :: self.aliases) (dest.aliases, mc1)
  let dest2 : Contributor :=
    if r.1 ≠ dest.aliases then { dest1 with aliases := r.1 } else dest1
  let mc2 := if r.1 ≠ dest.aliases then true else r.2
  let dest3 : Contributor := { dest2 with extra := extraMerge dest2.extra self.extra }
  let fLc := mergeField self.lc dest3.lc
  let fViaf := mergeField self.viaf dest3.viaf
  let fFam := mergeField self.family_name dest3.family_name
  let fDisp := mergeField self.display_name dest3.display_name
  let fWiki := mergeField self.wikipedia_name dest3.wikipedia_name
  let fBio := mergeField self.biography dest3.biography
  ({ dest3 with
      lc := fLc.1, viaf := fViaf.1, family_name := fFam.1,
      display_name := fDisp.1, wikipedia_name := fWiki.1,
      biography := fBio.1 },
   mc2 || fLc.2 || fViaf.2 || fFam.2 || fDisp.2 || fWiki.2 || fBio.2)

/-- One `Contribution` row: a contributor (identified here by the resolved
name `Contributor.lookup` keys on) holding one role on the edition. -/
structure Contribution where
  contributorName : Option String
  role : String
deriving DecidableEq, Repr

/-- Modelled from the spec: `Edition.add_contributor` backed by the record
store's find-or-create — attaching an already-present (contributor, role)
contribution is idempotent, otherwise the contribution is appended. -/
def addContribution (cs : List Contribution) (c : Contribution) :
    List Contribution :=
  if c ∈ cs then cs else cs ++ [c]

/-- The registration step of `Metadata.update_contributions` for one
`ContributorData`: a record with no truthy sort name, LC or VIAF is
skipped entirely; otherwise one contribution per declared role is
attached and the contributor's identity is recorded. -/
def registerContributor (acc : List Contribution × List (Option String))
    (cd : ContributorData) : List Contribution × List (Option String) :=
  if truthyS cd.sort_name || truthyS cd.lc || truthyS cd.viaf then
    (cd.roles.foldl
      (fun cs r => addContribution cs { contributorName := cd.sort_name, role := r })
      acc.1,
     acc.2 ++ [cd.sort_name])
  else acc

/-- `Metadata.update_contributions` from `metadata_layer.py` (lines
1609-1664), acting on the edition's contribution list: under
`replace` with a non-empty incoming list, *every* existing contribution is
deleted (the loop deletes unconditionally) and the old contributor
identities are collected; with an empty incoming list the `if replace and
self.contributors` guard skips the deletion entirely.  Then each incoming
contributor is registered, and `contributors_changed` is the
append-mode short-circuit or the order-independent comparison
`sorted(old_contributors) != sorted(new_contributors)`. -/
def Metadata.update_contributions (contributors : List ContributorData)
    (replace : Bool) (existing : List Contribution) :
    List Contribution × Bool :=
  let changed0 : Bool := !replace && !contributors.isEmpty
  let cleared : Bool := replace && !contributors.isEmpty
  let base := if cleared then [] else existing
  let oldIds : List (Option String) :=
    if cleared then existing.map (fun c => c.contributorName) else []
  let r := contributors.foldl registerContributor (base, [])
  (r.1, changed0
    || !decide ((oldIds : Multiset (Option String)) = (r.2 : Multiset (Option String))))

/-! ## Permanent work IDs (`model/edition.py` and `metadata_layer.py`) -/

namespace WorkIDCalculator

/-- Modelled from the spec: `WorkIDCalculator.normalize_title` of
`util/permanent_work_id.py` (not under `src/`) — locale-aware
normalization (case folding, trimming), represented as a deterministic
string function. -/
def normalize_title (t : Option String) : String :=
  ((t.getD "").toLower).trim

/-- Modelled from the spec: `WorkIDCalculator.normalize_author` of
`util/permanent_work_id.py` (not under `src/`). -/
def normalize_author (a : Option String) : String :=
  ((a.getD "").toLower).trim

/-- Modelled from the spec: `WorkIDCalculator.permanent_id` of
`util/permanent_work_id.py` (not under `src/`) — an implementation-defined
but deterministic combination (a hash in the source), represented as a
deterministic combination of the three normalized inputs. -/
def permanent_id (normTitle normAuthor medium : String) : String :=
  normTitle ++ "/" ++ normAuthor ++ "/" ++ medium

end WorkIDCalculator

/-- `Edition.calculate_permanent_work_id_for_title_and_author` from
`model/edition.py` (lines 592-600): normalize title and author through
the `WorkIDCalculator` and combine with the medium tag. -/
def Edition.calculate_permanent_work_id_for_title_and_author
    (title author : Option String) (medium : String) : String :=
  WorkIDCalculator.permanent_id
    (WorkIDCalculator.normalize_title title)
    (WorkIDCalculator.normalize_author author)
    medium

/-- `Metadata.calculate_permanent_work_id` from `metadata_layer.py` (lines
1200-1220), after the primary author (and its sort name) has been
resolved: no primary author yields no ID; otherwise the ID for the
record's title, the author's sort name, and the fixed medium `"book"`. -/
def Metadata.calculate_permanent_work_id (title : Option String)
    (primaryAuthor : Option ContributorData) : Option String :=
  match primaryAuthor with
  | none => none
  | some a =>
    some (Edition.calculate_permanent_work_id_for_title_and_author
      title a.sort_name "book")

/-! ## Circulation data (`metadata_layer.py`: `CirculationData`)

The link-relation, rights-status, media-type and DRM constants live in
model files outside `src/`; they are modelled from the spec (their exact
strings are irrelevant, only distinctness and the membership lists). -/

namespace Hyperlink

def OPEN_ACCESS_DOWNLOAD : String := "http://opds-spec.org/acquisition/open-access"
def GENERIC_OPDS_ACQUISITION : String := "http://opds-spec.org/acquisition"
def BORROW : String := "http://opds-spec.org/acquisition/borrow"
def DRM_ENCRYPTED_DOWNLOAD : String := "http://opds-spec.org/acquisition/drm-encrypted"
def CANONICAL : String := "canonical"
def IMAGE : String := "http://opds-spec.org/image"
def THUMBNAIL_IMAGE : String := "http://opds-spec.org/image/thumbnail"
def SHORT_DESCRIPTION : String := "http://librarysimplified.org/terms/rel/short-description"
def DESCRIPTION : String := "http://schema.org/description"

/-- Modelled from the spec: the circulation-relevant link relations. -/
def CIRCULATION_ALLOWED : List String :=
  [OPEN_ACCESS_DOWNLOAD, DRM_ENCRYPTED_DOWNLOAD, BORROW, GENERIC_OPDS_ACQUISITION]

/-- Modelled from the spec: the metadata-relevant link relations. -/
def METADATA_ALLOWED : List String :=
  [CANONICAL, IMAGE, THUMBNAIL_IMAGE, SHORT_DESCRIPTION, DESCRIPTION]

end Hyperlink

namespace RightsStatus

def IN_COPYRIGHT : String :=
  "http://librarysimplified.org/terms/rights-status/in-copyright"
def GENERIC_OPEN_ACCESS : String :=
  "http://librarysimplified.org/terms/rights-status/generic-open-access"
def UNKNOWN : String :=
  "http://librarysimplified.org/terms/rights-status/unknown"
def PUBLIC_DOMAIN_USA : String :=
  "http://librarysimplified.org/terms/rights-status/public-domain-usa"
def CC0 : String := "https://creativecommons.org/publicdomain/zero/1.0/"
def CC_BY : String := "http://creativecommons.org/licenses/by/4.0/"

/-- Modelled from the spec: the set of open-access rights URIs. -/
def OPEN_ACCESS : List String :=
  [PUBLIC_DOMAIN_USA, CC0, CC_BY, GENERIC_OPEN_ACCESS]

/-- Modelled from the spec: the per-source default rights table
(license sources with a known blanket rights status). -/
def DATA_SOURCE_DEFAULT_RIGHTS_STATUS (sourceName : String) : Option String :=
  if sourceName = DataSourceConstants.GUTENBERG then some PUBLIC_DOMAIN_USA
  else none

end RightsStatus

namespace DeliveryMechanism

/-- Modelled from the spec: the DRM-free scheme (`None` in the model). -/
def NO_DRM : Option String := none

end DeliveryMechanism

namespace Representation

/-- Modelled from the spec: the recognized book media types. -/
def BOOK_MEDIA_TYPES : List String :=
  ["application/epub+zip", "application/pdf",
   "application/x-mobipocket-ebook", "application/x-mobi8-ebook"]

end Representation

/-- The value-object `LinkData` of `metadata_layer.py` (the `thumbnail`
field is omitted: no claim concerns it). -/
structure LinkData where
  rel : String
  href : Option String := none
  media_type : Option String := none
  content : Option String := none
  rights_uri : Option String := none
deriving DecidableEq, Repr

/-- The value-object `FormatData` of `metadata_layer.py`. -/
structure FormatData where
  content_type : Option String := none
  drm_scheme : Option String := none
  link : Option LinkData := none
  rights_uri : Option String := none
deriving DecidableEq, Repr

/-- The `FormatData` constructor (`metadata_layer.py` lines 452-462): a
missing rights URI is defaulted from the link's (truthy) rights URI. -/
def FormatData.make (content_type drm_scheme : Option String)
    (link : Option LinkData) (rights_uri : Option String) : FormatData :=
  { content_type, drm_scheme, link,
    rights_uri :=
      if !truthyS rights_uri then
        match link with
        | some l => if truthyS l.rights_uri then l.rights_uri else rights_uri
        | none => rights_uri
      else rights_uri }

/-- `CirculationData.set_default_rights_uri` (`metadata_layer.py` lines
870-882): an explicitly passed (truthy) rights URI wins, else the
per-source default table, else `UNKNOWN`. -/
def setDefaultRightsUri (dataSourceName : Option String)
    (defaultRightsUri : Option String) : String :=
  let d0 : Option String :=
    if truthyS defaultRightsUri then defaultRightsUri
    else if truthyS dataSourceName then
      match RightsStatus.DATA_SOURCE_DEFAULT_RIGHTS_STATUS (dataSourceName.getD "") with
      | some d => if d ≠ "" then some d else none
      | none => none
    else none
  match d0 with
  | some s => if s ≠ "" then s else RightsStatus.UNKNOWN
  | none => RightsStatus.UNKNOWN

/-- `rights_uri = link.rights_uri or self.default_rights_uri` in the links
setter: the link's truthy rights URI, else the record's default. -/
def linkRightsUri (defaultRightsUri : String) (l : LinkData) : String :=
  match l.rights_uri with
  | some r => if r ≠ "" then r else defaultRightsUri
  | none => defaultRightsUri

/-- `open_access_link` of the links setter: an open-access-download
relation with a truthy href. -/
def isOpenAccessLink (l : LinkData) : Bool :=
  (l.rel == Hyperlink.OPEN_ACCESS_DOWNLOAD) && truthyS l.href

/-- `link.media_type in Representation.BOOK_MEDIA_TYPES`. -/
def mediaTypeIsBook (l : LinkData) : Bool :=
  match l.media_type with
  | some mt => Representation.BOOK_MEDIA_TYPES.contains mt
  | none => false

/-- `open_access_rights_link` of the links setter: a recognized book media
type with a truthy href whose effective rights URI is open-access. -/
def isOpenAccessRightsLink (defaultRightsUri : String) (l : LinkData) : Bool :=
  mediaTypeIsBook l && truthyS l.href
    && RightsStatus.OPEN_ACCESS.contains (linkRightsUri defaultRightsUri l)

/-- A link that the setter keeps *and* that implies a `FormatData`. -/
def generatesFormat (defaultRightsUri : String) (l : LinkData) : Bool :=
  Hyperlink.CIRCULATION_ALLOWED.contains l.rel
    && (isOpenAccessLink l || isOpenAccessRightsLink defaultRightsUri l)

/-- The rights URI the setter attaches to the format: an open-access-download
link whose effective rights URI neither is in-copyright nor already
open-access is treated as generic open access. -/
def finalRights (defaultRightsUri : String) (l : LinkData) : String :=
  if isOpenAccessLink l
      && !(linkRightsUri defaultRightsUri l == RightsStatus.IN_COPYRIGHT)
      && !(RightsStatus.OPEN_ACCESS.contains (linkRightsUri defaultRightsUri l)) then
    RightsStatus.GENERIC_OPEN_ACCESS
  else linkRightsUri defaultRightsUri l

/-- Does this format's link carry this href
(`format.link and format.link.href == link.href`)? -/
def hrefMatches (h : Option String) (f : FormatData) : Bool :=
  match f.link with
  | some l => l.href == h
  | none => false

/-- The `for format in self.formats` search of the links setter: find the
first format whose link carries the href; if its rights URI is not truthy,
set it; report `none` when no format matches (`format_found` stays false). -/
def markFormat (h : Option String) (ru : String) :
    List FormatData → Option (List FormatData)
  | [] => none
  | f :: fs =>
    if hrefMatches h f then
      some ((if truthyS f.rights_uri then f else { f with rights_uri := some ru }) :: fs)
    else
      match markFormat h ru fs with
      | some fs2 => some (f :: fs2)
      | none => none

/-- One iteration of the `CirculationData.links` setter loop
(`metadata_layer.py` lines 718-769) over the `(links, formats)` state. -/
def linkStep (defaultRightsUri : String)
    (st : List LinkData × List FormatData) (link : LinkData) :
    List LinkData × List FormatData :=
  if Hyperlink.CIRCULATION_ALLOWED.contains link.rel then
    let links := st.1 ++ [link]
    if isOpenAccessLink link || isOpenAccessRightsLink defaultRightsUri link then
      let ru := finalRights defaultRightsUri link
      match markFormat link.href ru st.2 with
      | some fs2 => (links, fs2)
      | none =>
        (links, st.2 ++ [FormatData.make link.media_type
          DeliveryMechanism.NO_DRM (some link) (some ru)])
    else (links, st.2)
  else st

/-- The `CirculationData.links` setter: reset `links` to empty, return
early on a falsy argument, else process every link. -/
def setLinks (defaultRightsUri : String) (formats0 : List FormatData)
    (argLinks : Option (List LinkData)) : List LinkData × List FormatData :=
  match argLinks with
  | none => ([], formats0)
  | some ls =>
    if ls.isEmpty then ([], formats0)
    else ls.foldl (linkStep defaultRightsUri) ([], formats0)

/-- The `(links, formats)` state a fresh `CirculationData` ends up with
when constructed from a data source name, an optional explicit default
rights URI, no initial formats (`formats=None`), and a list of links. -/
def CirculationData.linksAndFormatsOfNew (dataSourceName : Option String)
    (defaultRightsUri : Option String) (links : Option (List LinkData)) :
    List LinkData × List FormatData :=
  setLinks (setDefaultRightsUri dataSourceName defaultRightsUri) [] links

/-- The fields of the persistent `LicensePool` that `CirculationData.apply`
reads and writes (counts default to 0 at creation per the record store). -/
structure LicensePool where
  licenses_owned : Int := 0
  licenses_available : Int := 0
  licenses_reserved : Int := 0
  patrons_in_hold_queue : Int := 0
  last_checked : Option Int := none
  open_access : Bool := false
deriving DecidableEq, Repr

/-- The fields of the `CirculationData` value object that the availability
portion of `apply` reads (the link/format fields are carried separately by
`linksAndFormatsOfNew`). -/
structure CirculationData where
  licenses_owned : Option Int := none
  licenses_available : Option Int := none
  licenses_reserved : Option Int := none
  patrons_in_hold_queue : Option Int := none
  last_checked : Option Int := none
  links : List LinkData := []
deriving DecidableEq, Repr

/-- `CirculationData.has_open_access_link`: some kept link is an
open-access download with a truthy href not explicitly in copyright. -/
def CirculationData.hasOpenAccessLink (c : CirculationData) : Bool :=
  c.links.any (fun x => (x.rel == Hyperlink.OPEN_ACCESS_DOWNLOAD)
    && truthyS x.href
    && !(x.rights_uri == some RightsStatus.IN_COPYRIGHT))

/-- `CirculationData._availability_needs_update` (`metadata_layer.py`
lines 1005-1016): a missing incoming timestamp is fresher than anything, a
never-checked pool always needs the update, else compare. -/
def CirculationData.availabilityNeedsUpdate (c : CirculationData)
    (pool : LicensePool) : Bool :=
  match c.last_checked with
  | none => true
  | some t =>
    match pool.last_checked with
    | none => true
    | some tp => t ≥ tp

/-- Modelled from the spec: `LicensePool.update_availability` (in
`model/licensing.py`, not under `src/`) — a null incoming count means
"unknown, do not touch", non-null counts overwrite, `last_checked` is set
to `as_of`, and the call reports whether any count changed. -/
def LicensePool.update_availability (p : LicensePool)
    (nlo nla nlr npihq : Option Int) (asOf : Option Int) :
    LicensePool × Bool :=
  let p2 : LicensePool := { p with
    licenses_owned := nlo.getD p.licenses_owned,
    licenses_available := nla.getD p.licenses_available,
    licenses_reserved := nlr.getD p.licenses_reserved,
    patrons_in_hold_queue := npihq.getD p.patrons_in_hold_queue,
    last_checked := asOf }
  (p2, decide (p2.licenses_owned ≠ p.licenses_owned
    ∨ p2.licenses_available ≠ p.licenses_available
    ∨ p2.licenses_reserved ≠ p.licenses_reserved
    ∨ p2.patrons_in_hold_queue ≠ p.patrons_in_hold_queue))

/-- The pool `CirculationData.license_pool` finds or creates: an existing
pool for this collection is used as-is; a fresh pool starts with default
counts, the open-access flag from the links, and `last_checked` set to
the record's `last_checked`. -/
def CirculationData.licensePoolFor (c : CirculationData)
    (existingPool : Option LicensePool) : LicensePool :=
  match existingPool with
  | some p => p
  | none => { open_access := c.hasOpenAccessLink, last_checked := c.last_checked }

/-- `CirculationData.apply` (`metadata_layer.py` lines 884-1003) on the
state the claims concern: the fail-fast collection guard comes first (the
error is raised before anything is touched), then — only with a collection
— the pool is found or created and the staleness-gated availability update
runs.  Delivery-mechanism and mirroring side effects act on other tables
and are not represented; without a collection only that delivery/format
processing happens and no `LicensePool` is involved. -/
def CirculationData.apply (c : CirculationData) (hasCollection : Bool)
    (existingPool : Option LicensePool) :
    Except String (Option LicensePool × Bool) :=
  if !hasCollection && (c.licenses_owned ≠ none ∨ c.licenses_available ≠ none
      ∨ c.licenses_reserved ≠ none ∨ c.patrons_in_hold_queue ≠ none) then
    .error "Cannot store circulation information because no Collection was provided."
  else if hasCollection then
    let p := c.licensePoolFor existingPool
    if c.availabilityNeedsUpdate p then
      let r := p.update_availability c.licenses_owned c.licenses_available
        c.licenses_reserved c.patrons_in_hold_queue c.last_checked
      .ok (some r.1, r.2)
    else .ok (some p, false)
  else .ok (none, false)

/-! ## Subjects (`metadata_layer.py`: the `policy.subjects` portion of
`Metadata.apply`, lines 1451-1489) -/

/-- The value-object `SubjectData`, which coincides with its own merge key
`(type, identifier, name, weight)`. -/
structure SubjectData where
  type : Option String
  identifier : Option String
  name : Option String
  weight : Int
deriving DecidableEq, Repr

/-- The `SubjectData` constructor (`metadata_layer.py` lines 139-153):
truthy identifiers and names are whitespace-trimmed. -/
def SubjectData.make (type identifier name : Option String) (weight : Int) :
    SubjectData :=
  { type,
    identifier := if truthyS identifier then identifier.map String.trim
      else identifier,
    name := if truthyS name then name.map String.trim else name,
    weight }

/-- One persisted classification row.  `rowId` is the row identity, so
that value-equal rows remain distinct objects. -/
structure Classification where
  dataSourceName : String
  subjectType : Option String
  subjectIdentifier : Option String
  subjectName : Option String
  weight : Int
  rowId : Nat
deriving DecidableEq, Repr

/-- The `_key(classification)` tuple of `Metadata.apply`, packaged as the
`SubjectData` it corresponds to (a `SubjectData` is exactly its key). -/
def Classification.subjectData (c : Classification) : SubjectData :=
  { type := c.subjectType, identifier := c.subjectIdentifier,
    name := c.subjectName, weight := c.weight }

/-- The `new_subjects` dict of `Metadata.apply` keyed by `subject.key`:
since a `SubjectData` is exactly its key, inserting a subject whose key is
already present replaces an equal value and is the identity, so the dict
is the input list deduplicated keeping first occurrences. -/
def newSubjects (subjects : List SubjectData) : List SubjectData :=
  subjects.foldl (fun d s => if d.contains s then d else d ++ [s]) []

/-- Modelled from the spec: `Identifier.classify` — one remaining new
subject is applied as a fresh classification from this data source;
`rowId` is the fresh row identity. -/
def classify (ds : String) (s : SubjectData) (rowId : Nat) : Classification :=
  { dataSourceName := ds, subjectType := s.type,
    subjectIdentifier := s.identifier, subjectName := s.name,
    weight := s.weight, rowId }

/-- One iteration of the classification-pruning loop of `Metadata.apply`
under `policy.subjects`: a same-source classification whose key is still
in the dict survives and removes its key from the "to apply" set; a
same-source classification whose key is absent is deleted; classifications
from other sources always survive. -/
def subjectStep (ds : String)
    (acc : List Classification × List SubjectData) (c : Classification) :
    List Classification × List SubjectData :=
  if c.dataSourceName = ds then
    if acc.2.contains c.subjectData then
      (acc.1 ++ [c], acc.2.filter (fun s => !(s == c.subjectData)))
    else (acc.1, acc.2)
  else (acc.1 ++ [c], acc.2)

/-- The subject portion of `Metadata.apply` (`metadata_layer.py` lines
1451-1489): build the new-subject dict; under `policy.subjects` prune the
identifier's classifications against it; finally apply every remaining new
subject as a fresh classification (`freshId` numbers the new rows). -/
def Metadata.applySubjects (ds : String) (subjects : List SubjectData)
    (replaceSubjects : Bool) (cls : List Classification) (freshId : Nat) :
    List Classification :=
  let d0 := newSubjects subjects
  let pr := if replaceSubjects then cls.foldl (subjectStep ds) ([], d0)
    else (cls, d0)
  pr.1 ++ (pr.2.enum.map (fun p => classify ds p.2 (freshId + p.1)))

/-- The survival condition the pruning loop implements for one existing
classification: it comes from another source, or its key is one of the
(deduplicated) incoming subjects. -/
def survivingCond (ds : String) (d0 : List SubjectData) (c : Classification) :
    Bool :=
  !decide (c.dataSourceName = ds) || d0.contains c.subjectData

/-- The subject keys of the same-source classifications of a list, in
order. -/
def sameSourceSubjects (ds : String) (cls : List Classification) :
    List SubjectData :=
  (cls.filter (fun c => decide (c.dataSourceName = ds))).map
    Classification.subjectData


namespace Claims

open Measurement

/-- C10: a `Measurement` whose raw value is `0` or missing (and whose
persisted normalized-value cache is not a truthy number — the only states
the code itself can produce for such a value) normalizes to `None`,
regardless of data source and quantity; in particular a rating of 0 on the
`[0, 5]` NoveList scale is reported as unknown rather than as `0.0`. -/
theorem c10_zero_or_missing_value_normalizes_to_none
    (m : Measurement)
    (hcache : m.normalizedValueCol = none ∨ m.normalizedValueCol = some 0)
    (hval : m.value = none ∨ m.value = some 0) :
    m.normalized_value = none := by
  rcases hcache with h | h <;> rcases hval with h' | h' <;>
    simp [Measurement.normalized_value, truthyQ, h, h']

/-- Witness for C10: a rating of 0 from NoveList (rating scale `[0, 5]`)
normalizes to `None`. -/
theorem c10_zero_or_missing_value_normalizes_to_none_witness :
    Measurement.normalized_value
      { dataSourceName := DataSourceConstants.NOVELIST,
        quantityMeasured := Measurement.RATING,
        value := some 0, weight := 1, normalizedValueCol := none } = none :=
  c10_zero_or_missing_value_normalizes_to_none _ (Or.inl rfl) (Or.inr rfl)

theorem fromAverages_eq_described (p r q : Option ℚ) (pw rw dv : ℚ) :
    overallQualityFromAverages p r q pw rw dv
      = overallQualityDescribed p r q pw rw dv := by
  rcases p with _ | pv <;> rcases r with _ | rv <;> rcases q with _ | qv <;>
    simp [overallQualityFromAverages, overallQualityDescribed]


/-- C5 counterexample: with one popularity measurement normalizing to `1`
and one quality measurement normalizing to `0`, `overall_quality` returns
the popularity average `1` unfolded: the code's `if quality:` treats a
quality average of `0.0` as absent, so the claimed 50/50 fold with the
quality average does not happen even though quality-type measurements
exist and normalize. -/
theorem c5_counterexample :
    Measurement.overall_quality [cexPopularityMeasurement, cexQualityMeasurement]
      (3 / 10) (7 / 10) 0 = .ok 1 ∧
    (1 : ℚ) ≠ 1 / 2 + 0 / 2 := by
  refine ⟨?_, by norm_num⟩
  have hm1 : Measurement.normalized_value cexPopularityMeasurement = some 1 := by
    decide
  have hm2 : Measurement.normalized_value cexQualityMeasurement = some 0 := by
    decide
  have hf1 : List.filter
      (fun m => m.quantityMeasured = Measurement.POPULARITY
        ∨ m.quantityMeasured = Measurement.DOWNLOADS)
      [cexPopularityMeasurement, cexQualityMeasurement]
      = [cexPopularityMeasurement] := by decide
  have hf2 : List.filter (fun m => m.quantityMeasured = Measurement.RATING)
      [cexPopularityMeasurement, cexQualityMeasurement] = [] := by decide
  have hf3 : List.filter (fun m => m.quantityMeasured = Measurement.QUALITY)
      [cexPopularityMeasurement, cexQualityMeasurement]
      = [cexQualityMeasurement] := by decide
  have havg1 : Measurement.averageNormalizedValue [cexPopularityMeasurement]
      = some 1 := by
    simp only [Measurement.averageNormalizedValue, List.foldl_cons,
      List.foldl_nil, hm1]
    norm_num [cexPopularityMeasurement]
  have havg2 : Measurement.averageNormalizedValue ([] : List Measurement)
      = none := by
    norm_num [Measurement.averageNormalizedValue]
  have havg3 : Measurement.averageNormalizedValue [cexQualityMeasurement]
      = some 0 := by
    simp only [Measurement.averageNormalizedValue, List.foldl_cons,
      List.foldl_nil, hm2]
    norm_num [cexQualityMeasurement]
  rw [Measurement.overall_quality, if_neg (by norm_num), hf1, hf2, hf3,
    havg1, havg2, havg3]
  norm_num [Measurement.overallQualityFromAverages]

/-- C5 (amended): with valid weights, `overall_quality` equals the
described combination of the three weight-weighted category averages
(measurements that fail to normalize are skipped from every average — the
second conjunct): the caller default when no category average is present,
a single present category's average alone, the
`popularity * popularity_weight + rating * rating_weight` blend when
popularity and rating are both present, folded 50/50 with the quality
average only when that average is present *and nonzero* (the code's
`if quality:` truthiness test skips the fold for a zero quality average). -/
theorem c5_overall_quality_structure
    (ms : List Measurement) (pw rw dv : ℚ) (h : pw + rw = 1) :
    Measurement.overall_quality ms pw rw dv = .ok
      (Measurement.overallQualityDescribed
        (Measurement.averageNormalizedValue (ms.filter
          (fun m => m.quantityMeasured = POPULARITY ∨ m.quantityMeasured = DOWNLOADS)))
        (Measurement.averageNormalizedValue
          (ms.filter (fun m => m.quantityMeasured = RATING)))
        (Measurement.averageNormalizedValue
          (ms.filter (fun m => m.quantityMeasured = QUALITY)))
        pw rw dv) ∧
    ∀ (m : Measurement) (rest : List Measurement),
      Measurement.normalized_value m = none →
      Measurement.averageNormalizedValue (m :: rest)
        = Measurement.averageNormalizedValue rest := by
  constructor
  · rw [Measurement.overall_quality, if_neg (by simp [h]),
      fromAverages_eq_described]
  · intro m rest hm
    simp [Measurement.averageNormalizedValue, List.foldl_cons, hm]

/-- Witness for C5: no measurements at all yields the caller default. -/
theorem c5_overall_quality_structure_witness :
    Measurement.overall_quality [] (1 / 2) (1 / 2) 7 = .ok 7 := by
  have h := (c5_overall_quality_structure [] (1 / 2) (1 / 2) 7 (by norm_num)).1
  simpa [Measurement.overallQualityDescribed,
    Measurement.averageNormalizedValue] using h

/-- C6 counterexample: the Overdrive popularity table has the value `1` at
index `1`, but a popularity measurement of `1` normalizes to `0`, not to
`1 * 0.01`: `bisect_left` returns the leftmost position of the value, which
for a duplicated table entry is smaller than the entry's index. -/
theorem c6_counterexample :
    overdrivePercentiles.get? 1 = some 1 ∧
    Measurement.normalized_value
      { dataSourceName := DataSourceConstants.OVERDRIVE,
        quantityMeasured := Measurement.POPULARITY,
        value := some 1, weight := 1, normalizedValueCol := none } = some 0 ∧
    (0 : ℚ) ≠ 1 * (1 / 100) := by
  refine ⟨rfl, ?_, by norm_num⟩
  have hb : Measurement.bisectLeft overdrivePercentiles 1 = 0 := by decide
  rw [Measurement.normalized_value, if_neg (by decide), if_neg (by decide),
    if_pos (by exact ⟨rfl, by decide⟩)]
  show some ((Measurement.bisectLeft overdrivePercentiles 1 : ℚ) * (1 / 100))
      = some 0
  rw [hb]
  norm_num


theorem isNondecreasing_pairwise (l : List ℚ) (h : isNondecreasing l = true) :
    l.Pairwise (· ≤ ·) := by
  rw [← List.chain'_iff_pairwise]
  induction l with
  | nil => exact List.chain'_nil
  | cons x l ih =>
    cases l with
    | nil => exact List.chain'_singleton x
    | cons y rest =>
      rw [isNondecreasing, Bool.and_eq_true, decide_eq_true_eq] at h
      exact List.Chain'.cons h.1 (ih h.2)

theorem bisectLeft_eq_of_pairwise (d : List ℚ) (v : ℚ) (k : Nat)
    (hk : k < d.length)
    (hsorted : d.Pairwise (· ≤ ·))
    (hkv : d.get ⟨k, hk⟩ = v)
    (hlt : ∀ i, (hi : i < d.length) → i < k → d.get ⟨i, hi⟩ < v) :
    Measurement.bisectLeft d v = k := by
  induction d generalizing k with
  | nil => simp at hk
  | cons x d ih =>
    rcases List.pairwise_cons.mp hsorted with ⟨hx, hd⟩
    cases k with
    | zero =>
      have hxv : x = v := hkv
      subst hxv
      unfold Measurement.bisectLeft
      rw [List.countP_eq_zero.mpr]
      intro a ha
      rcases List.mem_cons.mp ha with h | h
      · simp [h]
      · simpa using not_lt_of_le (hx a h)
    | succ k =>
      have hx_lt : x < v := hlt 0 (Nat.succ_pos _) (Nat.succ_pos _)
      unfold Measurement.bisectLeft
      rw [List.countP_cons]
      have hrec : Measurement.bisectLeft d v = k := by
        refine ih k (Nat.lt_of_succ_lt_succ hk) hd hkv ?_
        intro i hi hik
        exact hlt (i + 1) (Nat.succ_lt_succ hi) (Nat.succ_lt_succ hik)
      unfold Measurement.bisectLeft at hrec
      simp [hrec, hx_lt]

/-- C6 (amended): for a data source with a popularity (resp. downloads)
percentile table and a measurement whose nonzero raw value sits at index
`k` of the table, where `k` is the *leftmost* index holding that value
(every earlier entry is strictly smaller), the normalized value is
`k * 0.01` — the `bisect_left` position of the value divided by 100. -/
theorem c6_percentile_table_normalization
    (m : Measurement) (d : List ℚ) (k : Nat) (v : ℚ)
    (hq : (m.quantityMeasured = POPULARITY
            ∧ POPULARITY_PERCENTILES m.dataSourceName = some d)
        ∨ (m.quantityMeasured = DOWNLOADS
            ∧ DOWNLOAD_PERCENTILES m.dataSourceName = some d))
    (hcache : m.normalizedValueCol = none ∨ m.normalizedValueCol = some 0)
    (hv : m.value = some v) (hv0 : v ≠ 0)
    (hchain : isNondecreasing d = true)
    (hk : k < d.length)
    (hkv : d.get ⟨k, hk⟩ = v)
    (hlt : ∀ i, (hi : i < d.length) → i < k → d.get ⟨i, hi⟩ < v) :
    m.normalized_value = some ((k : ℚ) * (1 / 100)) := by
  have hbis : Measurement.bisectLeft d v = k :=
    bisectLeft_eq_of_pairwise d v k hk (isNondecreasing_pairwise d hchain) hkv hlt
  have hcache' : truthyQ m.normalizedValueCol = false := by
    rcases hcache with h | h <;> simp [truthyQ, h]
  have hval' : truthyQ m.value = true := by simp [truthyQ, hv, hv0]
  rcases hq with ⟨hqm, htab⟩ | ⟨hqm, htab⟩
  · rw [Measurement.normalized_value, if_neg (by simp [hcache']),
      if_neg (by simp [hval']),
      if_pos (show _ ∧ _ from ⟨hqm, by simp [htab]⟩)]
    rw [htab, hv]
    show some ((Measurement.bisectLeft d v : ℚ) * (1 / 100)) = _
    rw [hbis]
  · have hpop : ¬ (m.quantityMeasured = POPULARITY
        ∧ (POPULARITY_PERCENTILES m.dataSourceName).isSome = true) := by
      rintro ⟨hcontra, -⟩
      rw [hqm] at hcontra
      exact absurd hcontra (by decide)
    rw [Measurement.normalized_value, if_neg (by simp [hcache']),
      if_neg (by simp [hval']), if_neg hpop,
      if_pos (show _ ∧ _ from ⟨hqm, by simp [htab]⟩)]
    rw [htab, hv]
    show some ((Measurement.bisectLeft d v : ℚ) * (1 / 100)) = _
    rw [hbis]

/-- Witness for C6: an Overdrive popularity of 2 sits first at index 3 of
the Overdrive percentile table and normalizes to `3 * 0.01`. -/
theorem c6_percentile_table_normalization_witness :
    Measurement.normalized_value
      { dataSourceName := DataSourceConstants.OVERDRIVE,
        quantityMeasured := Measurement.POPULARITY,
        value := some 2, weight := 1, normalizedValueCol := none }
      = some ((3 : ℚ) * (1 / 100)) :=
  c6_percentile_table_normalization _ overdrivePercentiles 3 2
    (Or.inl ⟨rfl, rfl⟩) (Or.inl rfl) rfl (by norm_num) (by decide)
    (by decide) (by decide) (by decide)

/-- C7: permanent-work-id calculation is deterministic: two calls to
`calculate_permanent_work_id_for_title_and_author` with identical title,
sort-author and medium inputs yield the identical ID, and two
`Metadata.calculate_permanent_work_id` calls whose resolved primary
authors carry the same sort name (and the same title) yield the identical
ID. -/
theorem c7_permanent_work_id_deterministic
    (t1 a1 : Option String) (m1 : String)
    (t2 a2 : Option String) (m2 : String)
    (ht : t1 = t2) (ha : a1 = a2) (hm : m1 = m2) :
    Edition.calculate_permanent_work_id_for_title_and_author t1 a1 m1
      = Edition.calculate_permanent_work_id_for_title_and_author t2 a2 m2 ∧
    ∀ c1 c2 : ContributorData, c1.sort_name = c2.sort_name →
      Metadata.calculate_permanent_work_id t1 (some c1)
        = Metadata.calculate_permanent_work_id t2 (some c2) := by
  subst ht; subst ha; subst hm
  refine ⟨rfl, ?_⟩
  intro c1 c2 hc
  simp [Metadata.calculate_permanent_work_id,
    Edition.calculate_permanent_work_id_for_title_and_author, hc]

/-- Witness for C7 at a concrete title/author/medium. -/
theorem c7_permanent_work_id_deterministic_witness :
    Edition.calculate_permanent_work_id_for_title_and_author
        (some "Moby-Dick") (some "Melville, Herman") "book"
      = Edition.calculate_permanent_work_id_for_title_and_author
        (some "Moby-Dick") (some "Melville, Herman") "book" :=
  (c7_permanent_work_id_deterministic (some "Moby-Dick")
    (some "Melville, Herman") "book" (some "Moby-Dick")
    (some "Melville, Herman") "book" rfl rfl rfl).1

/-- C2 counterexample: a replace-policy `update_contributions` with an
empty incoming contributor list leaves the edition's sole existing
contribution in place — nothing is cleared, contradicting the claim that
same-source contributions are removed (the edition found or created by
`Metadata.edition` belongs to this very ingestion source, so its
contributions are this source's). -/
theorem c2_counterexample :
    (Metadata.update_contributions [] true
        [{ contributorName := some "Melville, Herman", role := "Author" }]).1
      = [{ contributorName := some "Melville, Herman", role := "Author" }] ∧
    [({ contributorName := some "Melville, Herman", role := "Author" }
        : Contribution)] ≠ [] := by
  refine ⟨rfl, by simp⟩

/-- C2 (amended): `Metadata.update_contributions` under a replace policy
does not filter removals by data source: with a non-empty incoming list
*every* contribution on the edition is removed before the new contributors
are added (the result is independent of what was there), and with an
empty incoming list nothing is removed at all — the edition keeps exactly
its existing contributions and the call reports no change. -/
theorem c2_replace_contributions (cs : List ContributorData)
    (ex : List Contribution) :
    (cs = [] → Metadata.update_contributions cs true ex = (ex, false)) ∧
    (cs ≠ [] → (Metadata.update_contributions cs true ex).1
        = (Metadata.update_contributions cs true []).1) := by
  constructor
  · rintro rfl
    simp [Metadata.update_contributions]
  · intro h
    have hne : cs.isEmpty = false := by
      cases cs with
      | nil => exact absurd rfl h
      | cons a l => rfl
    simp [Metadata.update_contributions, hne]

/-- Witness for C2: replace-mode with empty incoming list on an edition
with one contribution keeps it and reports no change. -/
theorem c2_replace_contributions_witness :
    Metadata.update_contributions [] true
      [{ contributorName := some "A", role := "Author" }]
      = ([{ contributorName := some "A", role := "Author" }], false) :=
  (c2_replace_contributions []
    [{ contributorName := some "A", role := "Author" }]).1 rfl

theorem mergeField_fst (i c : Option String) :
    (mergeField i c).1 = c ∨ ((mergeField i c).1 = i ∧ truthyS i = true) := by
  unfold mergeField
  split_ifs with h
  · exact Or.inr ⟨rfl, h.1⟩
  · exact Or.inl rfl

theorem mergeField_snd (i c : Option String) :
    (mergeField i c).2 = true ↔ (mergeField i c).1 ≠ c := by
  unfold mergeField
  split_ifs with h
  · simpa using h.2
  · simp

theorem mergeField_not_truthy (i c : Option String)
    (h : truthyS i = false) : mergeField i c = (c, false) := by
  unfold mergeField
  rw [if_neg]
  rintro ⟨h1, -⟩
  rw [h] at h1
  exact Bool.false_ne_true h1

theorem addAliases_spec (dsn : Option String) (ex : List (Option String))
    (ns : List (Option String)) (al : List (Option String)) (b : Bool) :
    ∃ t, (addAliases dsn ex ns (al, b)).1 = al ++ t ∧
      (addAliases dsn ex ns (al, b)).2 = (b || !t.isEmpty) := by
  induction ns generalizing al b with
  | nil => exact ⟨[], by simp [addAliases]⟩
  | cons n rest ih =>
    rw [addAliases]
    split_ifs with h
    · obtain ⟨t, h1, h2⟩ := ih (al ++ [n]) true
      exact ⟨n :: t, by simpa using h1, by simpa using h2⟩
    · exact ih al b

theorem extraMerge_spec (dx sx : List (String × String)) :
    ∃ t, extraMerge dx sx = dx ++ t ∧
      ∀ p ∈ t, p ∈ sx ∧ assocHasKey dx p.1 = false := by
  induction sx generalizing dx with
  | nil => exact ⟨[], by simp [extraMerge]⟩
  | cons p rest ih =>
    rw [extraMerge, List.foldl_cons]
    split_ifs with h
    · obtain ⟨t, h1, h2⟩ := ih dx
      rw [extraMerge] at h1
      exact ⟨t, h1, fun q hq => ⟨List.mem_cons_of_mem _ (h2 q hq).1, (h2 q hq).2⟩⟩
    · obtain ⟨t, h1, h2⟩ := ih (dx ++ [p])
      rw [extraMerge] at h1
      refine ⟨p :: t, by simpa using h1, ?_⟩
      intro q hq
      rcases List.mem_cons.mp hq with rfl | hq'
      · exact ⟨List.mem_cons_self _ _, by simpa using h⟩
      · refine ⟨List.mem_cons_of_mem _ (h2 q hq').1, ?_⟩
        have := (h2 q hq').2
        unfold assocHasKey at this ⊢
        simp only [List.any_append, Bool.or_eq_false_iff] at this
        exact this.1

/-- `ContributorData.apply self dest` written out field by field: every
scalar goes through its guarded merge, the alias list is the alias loop's
result (the guarded assignment writes the same value when nothing was
appended), `extra` is the never-overwriting merge, and the flag collects
the guarded writes — with the `extra` merge contributing nothing. -/
theorem apply_eq (self : ContributorData) (dest : Contributor) :
    ContributorData.apply self dest =
      ({ sort_name := (mergeField self.sort_name dest.sort_name).1,
         display_name := (mergeField self.display_name dest.display_name).1,
         family_name := (mergeField self.family_name dest.family_name).1,
         wikipedia_name := (mergeField self.wikipedia_name dest.wikipedia_name).1,
         biography := (mergeField self.biography dest.biography).1,
         lc := (mergeField self.lc dest.lc).1,
         viaf := (mergeField self.viaf dest.viaf).1,
         aliases := (addAliases (mergeField self.sort_name dest.sort_name).1
           dest.aliases (self.sort_name :: self.aliases)
           (dest.aliases, (mergeField self.sort_name dest.sort_name).2)).1,
         extra := extraMerge dest.extra self.extra },
       (if (addAliases (mergeField self.sort_name dest.sort_name).1
              dest.aliases (self.sort_name :: self.aliases)
              (dest.aliases, (mergeField self.sort_name dest.sort_name).2)).1
            ≠ dest.aliases then true
        else (addAliases (mergeField self.sort_name dest.sort_name).1
              dest.aliases (self.sort_name :: self.aliases)
              (dest.aliases, (mergeField self.sort_name dest.sort_name).2)).2)
         || (mergeField self.lc dest.lc).2
         || (mergeField self.viaf dest.viaf).2
         || (mergeField self.family_name dest.family_name).2
         || (mergeField self.display_name dest.display_name).2
         || (mergeField self.wikipedia_name dest.wikipedia_name).2
         || (mergeField self.biography dest.biography).2) := by
  simp only [ContributorData.apply]
  split_ifs with hal
  · rfl
  · have h := not_not.mp (fun hne => hal hne)
    simp [h]

set_option maxHeartbeats 1000000 in
/-- C8 (amended): `ContributorData.apply` merges only non-empty incoming
scalar fields (each destination scalar is either kept or overwritten by a
truthy incoming value — so an empty incoming field never changes it and a
populated field is never cleared); destination aliases are never removed
(the original alias list stays as a prefix), and with an empty incoming
alias list the alias list either stays unchanged or gains exactly the
incoming `sort_name` entry (the code appends `self.sort_name` — possibly
null — whenever it differs from the merged sort name and is not already an
alias); `extra` entries already present are never overwritten and only
fresh keys are appended; and the returned flag is True iff some field
*other than `extra`* changed — `extra` additions never raise the flag. -/
theorem c8_contributor_data_merge (self : ContributorData) (dest : Contributor) :
    ((ContributorData.apply self dest).1.sort_name = dest.sort_name
      ∨ ((ContributorData.apply self dest).1.sort_name = self.sort_name
          ∧ truthyS self.sort_name = true)) ∧
    ((ContributorData.apply self dest).1.lc = dest.lc
      ∨ ((ContributorData.apply self dest).1.lc = self.lc
          ∧ truthyS self.lc = true)) ∧
    ((ContributorData.apply self dest).1.viaf = dest.viaf
      ∨ ((ContributorData.apply self dest).1.viaf = self.viaf
          ∧ truthyS self.viaf = true)) ∧
    ((ContributorData.apply self dest).1.family_name = dest.family_name
      ∨ ((ContributorData.apply self dest).1.family_name = self.family_name
          ∧ truthyS self.family_name = true)) ∧
    ((ContributorData.apply self dest).1.display_name = dest.display_name
      ∨ ((ContributorData.apply self dest).1.display_name = self.display_name
          ∧ truthyS self.display_name = true)) ∧
    ((ContributorData.apply self dest).1.wikipedia_name = dest.wikipedia_name
      ∨ ((ContributorData.apply self dest).1.wikipedia_name = self.wikipedia_name
          ∧ truthyS self.wikipedia_name = true)) ∧
    ((ContributorData.apply self dest).1.biography = dest.biography
      ∨ ((ContributorData.apply self dest).1.biography = self.biography
          ∧ truthyS self.biography = true)) ∧
    ((ContributorData.apply self dest).1.aliases.take dest.aliases.length
      = dest.aliases) ∧
    (self.aliases = [] →
      ((ContributorData.apply self dest).1.aliases = dest.aliases ∨
       (ContributorData.apply self dest).1.aliases
         = dest.aliases ++ [self.sort_name])) ∧
    ((ContributorData.apply self dest).1.extra.take dest.extra.length
      = dest.extra) ∧
    (∀ p ∈ (ContributorData.apply self dest).1.extra,
       p ∈ dest.extra ∨ assocHasKey dest.extra p.1 = false) ∧
    ((ContributorData.apply self dest).2 = true ↔
      ((ContributorData.apply self dest).1.sort_name ≠ dest.sort_name
       ∨ (ContributorData.apply self dest).1.aliases ≠ dest.aliases
       ∨ (ContributorData.apply self dest).1.lc ≠ dest.lc
       ∨ (ContributorData.apply self dest).1.viaf ≠ dest.viaf
       ∨ (ContributorData.apply self dest).1.family_name ≠ dest.family_name
       ∨ (ContributorData.apply self dest).1.display_name ≠ dest.display_name
       ∨ (ContributorData.apply self dest).1.wikipedia_name ≠ dest.wikipedia_name
       ∨ (ContributorData.apply self dest).1.biography ≠ dest.biography)) := by
  obtain ⟨t, ht1, ht2⟩ := addAliases_spec (mergeField self.sort_name dest.sort_name).1
    dest.aliases (self.sort_name :: self.aliases) dest.aliases
    (mergeField self.sort_name dest.sort_name).2
  obtain ⟨u, hu1, hu2⟩ := extraMerge_spec dest.extra self.extra
  rw [apply_eq]
  refine ⟨mergeField_fst _ _, mergeField_fst _ _, mergeField_fst _ _,
    mergeField_fst _ _, mergeField_fst _ _, mergeField_fst _ _,
    mergeField_fst _ _, ?_, ?_, ?_, ?_, ?_⟩
  · show ((addAliases _ _ _ _).1).take dest.aliases.length = dest.aliases
    rw [ht1, List.take_left]
  · intro hempty
    show (addAliases _ _ _ (dest.aliases, _)).1 = dest.aliases ∨
      (addAliases _ _ _ (dest.aliases, _)).1 = dest.aliases ++ [self.sort_name]
    rw [hempty]
    rw [addAliases]
    split_ifs with h
    · right
      rw [addAliases]
    · left
      rw [addAliases]
  · show (extraMerge dest.extra self.extra).take dest.extra.length = dest.extra
    rw [hu1, List.take_left]
  · intro p hp
    rw [hu1] at hp
    rcases List.mem_append.mp hp with h | h
    · exact Or.inl h
    · exact Or.inr (hu2 p h).2
  · rw [ht1]
    by_cases hte : t = []
    · subst hte
      simp only [List.append_nil, ne_eq, not_true_eq_false, if_false,
        List.isEmpty_nil, Bool.not_true, Bool.or_false] at ht2 ⊢
      rw [ht2]
      simp only [Bool.or_eq_true, mergeField_snd]
      have hrefl : dest.aliases = dest.aliases := rfl
      tauto
    · have hne : dest.aliases ++ t ≠ dest.aliases := by
        intro hcontra
        exact hte (by simpa using hcontra)
      rw [if_pos hne]
      simp only [Bool.true_or, true_iff]
      exact Or.inr (Or.inl hne)

/-- C8 counterexample: merging a record that carries only a new `extra`
key changes the destination (the key is added) while the returned flag is
`False`: the `extra` loop never sets `made_changes`, refuting "the
returned flag is True iff some field of the destination changed". -/
theorem c8_counterexample :
    (ContributorData.apply { extra := [("birthDate", "1970")] }
      ({} : Contributor)).2 = false ∧
    (ContributorData.apply { extra := [("birthDate", "1970")] }
      ({} : Contributor)).1 ≠ ({} : Contributor) := by
  refine ⟨by decide, by decide⟩

/-- Witness for C8: a truthy incoming sort name on an empty destination
raises the flag. -/
theorem c8_contributor_data_merge_witness :
    (ContributorData.apply { sort_name := some "Melville, Herman" }
      ({} : Contributor)).2 = true := by
  have h := c8_contributor_data_merge
    { sort_name := some "Melville, Herman" } ({} : Contributor)
  exact (h.2.2.2.2.2.2.2.2.2.2.2).mpr (Or.inl (by decide))

/-- C9: `CirculationData.apply` raises the contract error immediately —
before any state is touched — whenever some license-count field is
non-null but no collection is given; with all four count fields null the
call does not raise for this reason and proceeds without a LicensePool
(only delivery/format information is processed). -/
theorem c9_counts_require_collection (c : CirculationData) (pool : Option LicensePool) :
    ((c.licenses_owned ≠ none ∨ c.licenses_available ≠ none
        ∨ c.licenses_reserved ≠ none ∨ c.patrons_in_hold_queue ≠ none) →
      CirculationData.apply c false pool
        = .error "Cannot store circulation information because no Collection was provided.") ∧
    (c.licenses_owned = none → c.licenses_available = none →
     c.licenses_reserved = none → c.patrons_in_hold_queue = none →
      CirculationData.apply c false pool = .ok (none, false)) := by
  constructor
  · intro h
    rw [CirculationData.apply, if_pos (by simp [h])]
  · intro h1 h2 h3 h4
    rw [CirculationData.apply, if_neg (by simp [h1, h2, h3, h4])]
    simp

/-- C1: the staleness gate of `CirculationData.apply`.  When the incoming
record's `last_checked` is strictly older than the pool's persisted
`last_checked`, the pool is returned untouched (no license count is
overwritten); and whenever any license count of the pool changes across an
`apply` with both timestamps present, the incoming timestamp was at least
the persisted one. -/
theorem c1_stale_counts_never_regress (c : CirculationData) (p : LicensePool) (tn tp : Int)
    (hc : c.last_checked = some tn) (hp : p.last_checked = some tp)
    (hlt : tn < tp) :
    CirculationData.apply c true (some p) = .ok (some p, false) ∧
    ∀ (c2 : CirculationData) (p2 q : LicensePool) (b : Bool) (a b2 : Int),
      c2.last_checked = some a → p2.last_checked = some b2 →
      CirculationData.apply c2 true (some p2) = .ok (some q, b) →
      (q.licenses_owned ≠ p2.licenses_owned
        ∨ q.licenses_available ≠ p2.licenses_available
        ∨ q.licenses_reserved ≠ p2.licenses_reserved
        ∨ q.patrons_in_hold_queue ≠ p2.patrons_in_hold_queue) →
      b2 ≤ a := by
  have hnu : c.availabilityNeedsUpdate p = false := by
    rw [CirculationData.availabilityNeedsUpdate, hc, hp]
    simp [not_le.mpr hlt]
  constructor
  · rw [CirculationData.apply, if_neg (by simp)]
    simp only [CirculationData.licensePoolFor, if_true]
    rw [if_neg (by simp [hnu])]
  · intro c2 p2 q b a b2 hc2 hp2 happly hdiff
    rw [CirculationData.apply, if_neg (by simp)] at happly
    simp only [CirculationData.licensePoolFor, if_true] at happly
    by_cases hnu2 : c2.availabilityNeedsUpdate p2 = true
    · rw [CirculationData.availabilityNeedsUpdate, hc2, hp2] at hnu2
      simpa using hnu2
    · rw [if_neg hnu2] at happly
      simp only [Except.ok.injEq, Prod.mk.injEq, Option.some.injEq] at happly
      obtain ⟨hq, -⟩ := happly
      subst hq
      rcases hdiff with h | h | h | h <;> exact absurd rfl h

/-- Witness for C9: a record with `licenses_owned=5` and no collection is
rejected; the same record with all counts null is processed without a
pool. -/
theorem c9_counts_require_collection_witness :
    CirculationData.apply { licenses_owned := some 5 } false none
      = .error "Cannot store circulation information because no Collection was provided."
    ∧ CirculationData.apply
        { links := [{ rel := Hyperlink.OPEN_ACCESS_DOWNLOAD,
                      href := some "http://x/book.epub" }] } false none
      = .ok (none, false) :=
  ⟨(c9_counts_require_collection { licenses_owned := some 5 } none).1
      (Or.inl (by decide)),
   (c9_counts_require_collection _ none).2 rfl rfl rfl rfl⟩

/-- Witness for C1: an update at time 0 against a pool last checked at
time 1 leaves the pool exactly as it was. -/
theorem c1_stale_counts_never_regress_witness :
    CirculationData.apply { licenses_owned := some 3, last_checked := some 0 }
      true (some { licenses_owned := 5, last_checked := some 1 })
      = .ok (some { licenses_owned := 5, last_checked := some 1 }, false) :=
  (c1_stale_counts_never_regress
    { licenses_owned := some 3, last_checked := some 0 }
    { licenses_owned := 5, last_checked := some 1 } 0 1 rfl rfl
    (by norm_num)).1


theorem isEmpty_false_of_ne (s : String) (h : s ≠ "") : s.isEmpty = false := by
  rw [Bool.eq_false_iff]
  intro hc
  exact h ((String.isEmpty_iff _).mp hc)

theorem linkRightsUri_ne_empty (D : String) (hD : D ≠ "") (l : LinkData) :
    linkRightsUri D l ≠ "" := by
  rw [linkRightsUri]
  cases l.rights_uri with
  | none => exact hD
  | some r =>
    by_cases hr : r = ""
    · simp [hr, hD]
    · simp [hr]

theorem finalRights_ne_empty (D : String) (hD : D ≠ "") (l : LinkData) :
    finalRights D l ≠ "" := by
  rw [finalRights]
  split_ifs with h
  · intro hc
    exact absurd hc (by decide)
  · exact linkRightsUri_ne_empty D hD l

theorem setDefaultRightsUri_ne_empty (dsn dru : Option String) :
    setDefaultRightsUri dsn dru ≠ "" := by
  rw [setDefaultRightsUri]
  cases h : (if truthyS dru then dru
    else if truthyS dsn then
      match RightsStatus.DATA_SOURCE_DEFAULT_RIGHTS_STATUS (dsn.getD "") with
      | some d => if d ≠ "" then some d else none
      | none => none
    else none) with
  | none => exact (by decide : RightsStatus.UNKNOWN ≠ "")
  | some s =>
    by_cases hs : s = ""
    · simp [hs]
      exact (by decide : RightsStatus.UNKNOWN ≠ "")
    · simp [hs]

theorem markFormat_none_iff (h : Option String) (ru : String)
    (fs : List FormatData) :
    markFormat h ru fs = none ↔ ∀ f ∈ fs, hrefMatches h f = false := by
  induction fs with
  | nil => simp [markFormat]
  | cons f fs ih =>
    rw [markFormat]
    split_ifs with hf
    · simp [hf]
    · cases hm : markFormat h ru fs with
      | some fs2 =>
        simp only [hm]
        constructor
        · intro hc
          exact absurd hc (by simp)
        · intro hall
          exact absurd (ih.mpr (fun g hg => hall g (List.mem_cons_of_mem _ hg)))
            (by simp [hm])
      | none =>
        simp only [hm]
        constructor
        · intro _ g hg
          rcases List.mem_cons.mp hg with rfl | hg2
          · simpa using hf
          · exact (ih.mp hm) g hg2
        · intro _
          trivial

theorem markFormat_some_eq (h : Option String) (ru : String)
    (fs fs2 : List FormatData)
    (htruthy : ∀ f ∈ fs, truthyS f.rights_uri = true)
    (hm : markFormat h ru fs = some fs2) : fs2 = fs := by
  induction fs generalizing fs2 with
  | nil => simp [markFormat] at hm
  | cons f fs ih =>
    rw [markFormat] at hm
    by_cases hf : hrefMatches h f = true
    · rw [if_pos hf, if_pos (htruthy f (List.mem_cons_self _ _))] at hm
      exact (Option.some.inj hm).symm
    · rw [if_neg hf] at hm
      cases hm2 : markFormat h ru fs with
      | some fs3 =>
        rw [hm2] at hm
        have h3 := ih fs3 (fun g hg => htruthy g (List.mem_cons_of_mem _ hg)) hm2
        have h4 : f :: fs3 = fs2 := Option.some.inj hm
        rw [← h4, h3]
      | none =>
        rw [hm2] at hm
        exact absurd hm (by simp)

theorem markFormat_some_mem (h : Option String) (ru : String)
    (fs fs2 : List FormatData) (hm : markFormat h ru fs = some fs2) :
    ∃ f ∈ fs, hrefMatches h f = true := by
  by_contra hc
  push_neg at hc
  have : markFormat h ru fs = none := (markFormat_none_iff h ru fs).mpr
    (fun f hf => by simpa using hc f hf)
  rw [this] at hm
  exact absurd hm (by simp)

theorem linkStep_fst (D : String) (st : List LinkData × List FormatData)
    (l : LinkData) :
    (linkStep D st l).1
      = if Hyperlink.CIRCULATION_ALLOWED.contains l.rel then st.1 ++ [l]
        else st.1 := by
  rw [linkStep]
  by_cases h1 : Hyperlink.CIRCULATION_ALLOWED.contains l.rel
  · rw [if_pos h1, if_pos h1]
    by_cases h2 : (isOpenAccessLink l || isOpenAccessRightsLink D l) = true
    · rw [if_pos h2]
      cases hm : markFormat l.href (finalRights D l) st.2 <;> simp [hm]
    · rw [if_neg h2]
  · rw [if_neg h1, if_neg h1]

theorem newFormat_eval (D : String) (hD : D ≠ "") (l : LinkData) :
    FormatData.make l.media_type DeliveryMechanism.NO_DRM (some l)
        (some (finalRights D l))
      = { content_type := l.media_type, drm_scheme := none,
          link := some l, rights_uri := some (finalRights D l) } := by
  rw [FormatData.make]
  have : truthyS (some (finalRights D l)) = true := by
    simp [truthyS, isEmpty_false_of_ne _ (finalRights_ne_empty D hD l)]
  rw [this]
  rfl

theorem linkStep_snd (D : String) (st : List LinkData × List FormatData)
    (l : LinkData) :
    (linkStep D st l).2
      = if generatesFormat D l then
          match markFormat l.href (finalRights D l) st.2 with
          | some fs2 => fs2
          | none => st.2 ++ [FormatData.make l.media_type
              DeliveryMechanism.NO_DRM (some l) (some (finalRights D l))]
        else st.2 := by
  rw [linkStep]
  by_cases h1 : Hyperlink.CIRCULATION_ALLOWED.contains l.rel
  · rw [if_pos h1]
    by_cases h2 : (isOpenAccessLink l || isOpenAccessRightsLink D l) = true
    · rw [if_pos h2,
        if_pos (show generatesFormat D l = true by
          rw [generatesFormat, h1, Bool.true_and]; exact h2)]
      cases hm : markFormat l.href (finalRights D l) st.2 <;> simp [hm]
    · rw [if_neg h2,
        if_neg (show ¬ generatesFormat D l = true from fun hg =>
          h2 (by rw [generatesFormat, h1, Bool.true_and] at hg; exact hg))]
  · rw [if_neg h1,
      if_neg (show ¬ generatesFormat D l = true from fun hg =>
        h1 (by rw [generatesFormat, Bool.and_eq_true] at hg; exact hg.1))]


theorem find?_append_some {α : Type} (p : α → Bool) (l1 l2 : List α) (a : α)
    (h : l1.find? p = some a) : (l1 ++ l2).find? p = some a := by
  rw [List.find?_append, h]; rfl

theorem find?_append_none {α : Type} (p : α → Bool) (l1 l2 : List α)
    (h : l1.find? p = none) : (l1 ++ l2).find? p = l2.find? p := by
  rw [List.find?_append, h]; rfl

theorem setLinks_fold_invariant (D : String) (hD : D ≠ "") :
    ∀ (ls processed : List LinkData) (st : List LinkData × List FormatData),
    (∀ f ∈ st.2, ∃ l, generatesFormat D l = true ∧ f.link = some l
        ∧ f.content_type = l.media_type ∧ f.drm_scheme = none
        ∧ f.rights_uri = some (finalRights D l)
        ∧ processed.find? (fun l2 => generatesFormat D l2 && (l2.href == l.href))
            = some l) →
    (∀ l ∈ processed, generatesFormat D l = true →
        st.2.countP (hrefMatches l.href) = 1) →
    ((∀ f ∈ (ls.foldl (linkStep D) st).2, ∃ l, generatesFormat D l = true
        ∧ f.link = some l ∧ f.content_type = l.media_type ∧ f.drm_scheme = none
        ∧ f.rights_uri = some (finalRights D l)
        ∧ (processed ++ ls).find?
            (fun l2 => generatesFormat D l2 && (l2.href == l.href)) = some l)
     ∧ (∀ l ∈ processed ++ ls, generatesFormat D l = true →
          ((ls.foldl (linkStep D) st).2).countP (hrefMatches l.href) = 1)) := by
  intro ls
  induction ls with
  | nil =>
    intro processed st h1 h2
    simpa using ⟨h1, h2⟩
  | cons l ls ih =>
    intro processed st h1 h2
    rw [List.foldl_cons]
    have hstep2 := linkStep_snd D st l
    have hkey : (∀ f ∈ (linkStep D st l).2, ∃ l0, generatesFormat D l0 = true
        ∧ f.link = some l0 ∧ f.content_type = l0.media_type
        ∧ f.drm_scheme = none ∧ f.rights_uri = some (finalRights D l0)
        ∧ (processed ++ [l]).find?
            (fun l2 => generatesFormat D l2 && (l2.href == l0.href)) = some l0)
      ∧ (∀ l0 ∈ processed ++ [l], generatesFormat D l0 = true →
          ((linkStep D st l).2).countP (hrefMatches l0.href) = 1) := by
      by_cases hg : generatesFormat D l = true
      · rw [if_pos hg] at hstep2
        cases hm : markFormat l.href (finalRights D l) st.2 with
        | some fs2 =>
          rw [hm] at hstep2
          have htruthy : ∀ f ∈ st.2, truthyS f.rights_uri = true := by
            intro f hf
            obtain ⟨l0, -, -, -, -, hru, -⟩ := h1 f hf
            rw [hru]
            simp [truthyS, isEmpty_false_of_ne _ (finalRights_ne_empty D hD l0)]
          have hfs2 : fs2 = st.2 := markFormat_some_eq _ _ _ _ htruthy hm
          rw [hfs2] at hstep2
          obtain ⟨f0, hf0mem, hf0match⟩ := markFormat_some_mem _ _ _ _ hm
          obtain ⟨l0, hgl0, hlink0, -, -, -, hfind0⟩ := h1 f0 hf0mem
          have hhref : l0.href = l.href := by
            rw [hrefMatches, hlink0] at hf0match
            exact eq_of_beq hf0match
          constructor
          · intro f hf
            rw [hstep2] at hf
            obtain ⟨l1, hgl1, hlink1, hct1, hdrm1, hru1, hfind1⟩ := h1 f hf
            exact ⟨l1, hgl1, hlink1, hct1, hdrm1, hru1,
              find?_append_some _ _ _ _ hfind1⟩
          · intro l1 hl1 hgl1
            rw [hstep2]
            rcases List.mem_append.mp hl1 with hmem | hmem
            · exact h2 l1 hmem hgl1
            · have : l1 = l := by simpa using hmem
              subst this
              have hcount := h2 l0 (List.mem_of_find?_eq_some hfind0) hgl0
              rw [hhref] at hcount
              exact hcount
        | none =>
          rw [hm] at hstep2
          have hzero : st.2.countP (hrefMatches l.href) = 0 :=
            List.countP_eq_zero.mpr (fun f hf => by
              simpa using (markFormat_none_iff _ _ _).mp hm f hf)
          have hnf := newFormat_eval D hD l
          have hfind_new : (processed ++ [l]).find?
              (fun l2 => generatesFormat D l2 && (l2.href == l.href)) = some l := by
            have hfp : processed.find?
                (fun l2 => generatesFormat D l2 && (l2.href == l.href)) = none := by
              cases hfp : processed.find?
                  (fun l2 => generatesFormat D l2 && (l2.href == l.href)) with
              | none => rfl
              | some l2 =>
                have hpred := List.find?_some hfp
                rw [Bool.and_eq_true] at hpred
                have hmem2 := List.mem_of_find?_eq_some hfp
                have hcount := h2 l2 hmem2 hpred.1
                have hh : l2.href = l.href := eq_of_beq hpred.2
                rw [hh, hzero] at hcount
                exact absurd hcount (by simp)
            rw [find?_append_none _ _ _ hfp, List.find?]
            simp [hg]
          constructor
          · intro f hf
            rw [hstep2] at hf
            rcases List.mem_append.mp hf with hmem | hmem
            · obtain ⟨l1, hgl1, hlink1, hct1, hdrm1, hru1, hfind1⟩ := h1 f hmem
              exact ⟨l1, hgl1, hlink1, hct1, hdrm1, hru1,
                find?_append_some _ _ _ _ hfind1⟩
            · have hfeq : f = FormatData.make l.media_type
                  DeliveryMechanism.NO_DRM (some l) (some (finalRights D l)) := by
                simpa using hmem
              rw [hfeq, hnf]
              exact ⟨l, hg, rfl, rfl, rfl, rfl, hfind_new⟩
          · intro l1 hl1 hgl1
            rw [hstep2, List.countP_append]
            have hnfmatch : hrefMatches l1.href (FormatData.make l.media_type
                DeliveryMechanism.NO_DRM (some l) (some (finalRights D l)))
                = (l.href == l1.href) := by
              rw [hnf, hrefMatches]
            rcases List.mem_append.mp hl1 with hmem | hmem
            · have hcount := h2 l1 hmem hgl1
              have hne : (l.href == l1.href) = false := by
                by_contra hcontra
                have hbeq : (l.href == l1.href) = true := by
                  cases hval : (l.href == l1.href) with
                  | true => rfl
                  | false => exact absurd hval hcontra
                have hh : l.href = l1.href := eq_of_beq hbeq
                rw [← hh] at hcount
                rw [hzero] at hcount
                exact absurd hcount (by simp)
              rw [hcount]
              simp [List.countP, List.countP.go, hnfmatch, hne]
            · have : l1 = l := by simpa using hmem
              subst this
              rw [hzero]
              simp [List.countP, List.countP.go, hnfmatch]
      · have hg2 : generatesFormat D l = false := by
          cases hval : generatesFormat D l with
          | true => exact absurd hval hg
          | false => rfl
        rw [hg2] at hstep2
        simp only [Bool.false_eq_true, if_false] at hstep2
        constructor
        · intro f hf
          rw [hstep2] at hf
          obtain ⟨l1, hgl1, hlink1, hct1, hdrm1, hru1, hfind1⟩ := h1 f hf
          exact ⟨l1, hgl1, hlink1, hct1, hdrm1, hru1,
            find?_append_some _ _ _ _ hfind1⟩
        · intro l1 hl1 hgl1
          rw [hstep2]
          rcases List.mem_append.mp hl1 with hmem | hmem
          · exact h2 l1 hmem hgl1
          · have : l1 = l := by simpa using hmem
            subst this
            exact absurd hgl1 hg
    have hrec := ih (processed ++ [l]) (linkStep D st l) hkey.1 hkey.2
    rw [List.append_assoc] at hrec
    simpa using hrec


theorem setLinks_fold_fst (D : String) :
    ∀ (ls : List LinkData) (st : List LinkData × List FormatData),
    (ls.foldl (linkStep D) st).1
      = st.1 ++ ls.filter (fun l => Hyperlink.CIRCULATION_ALLOWED.contains l.rel) := by
  intro ls
  induction ls with
  | nil => intro st; simp
  | cons l ls ih =>
    intro st
    rw [List.foldl_cons, ih, List.filter_cons, linkStep_fst]
    by_cases h : Hyperlink.CIRCULATION_ALLOWED.contains l.rel = true
    · rw [if_pos h, if_pos h]
      simp
    · rw [if_neg h, if_neg h]

/-- C3: a `CirculationData` built with no initial formats from an
arbitrary link list keeps exactly the circulation-relevant links in
`.links`; every kept open-access link (an open-access-download relation
with a truthy href, or a circulation relation whose media type is a
recognized book type with a truthy href and an effective rights URI in the
open-access set) corresponds to exactly one `FormatData` in `.formats`,
deduplicated by href; and every produced format carries `NO_DRM`, the
link's media type, and the resolved rights URI of the *first* such link
with that href (with an initially empty format list every rights URI is
non-empty, so the first link wins outright). -/
theorem c3_links_and_formats (dsn dru : Option String) (ls : List LinkData) :
    (CirculationData.linksAndFormatsOfNew dsn dru (some ls)).1
      = ls.filter (fun l => Hyperlink.CIRCULATION_ALLOWED.contains l.rel) ∧
    (∀ l ∈ ls, generatesFormat (setDefaultRightsUri dsn dru) l = true →
      ((CirculationData.linksAndFormatsOfNew dsn dru (some ls)).2).countP
        (hrefMatches l.href) = 1) ∧
    (∀ f ∈ (CirculationData.linksAndFormatsOfNew dsn dru (some ls)).2,
      ∃ l, generatesFormat (setDefaultRightsUri dsn dru) l = true
        ∧ f.link = some l ∧ f.content_type = l.media_type
        ∧ f.drm_scheme = DeliveryMechanism.NO_DRM
        ∧ f.rights_uri = some (finalRights (setDefaultRightsUri dsn dru) l)
        ∧ ls.find? (fun l2 => generatesFormat (setDefaultRightsUri dsn dru) l2
            && (l2.href == l.href)) = some l) := by
  have hD := setDefaultRightsUri_ne_empty dsn dru
  rw [CirculationData.linksAndFormatsOfNew, setLinks]
  by_cases hemp : ls.isEmpty = true
  · have hnil : ls = [] := by
      cases ls with
      | nil => rfl
      | cons a l => simp [List.isEmpty] at hemp
    subst hnil
    rw [if_pos hemp]
    refine ⟨rfl, ?_, ?_⟩
    · intro l hl
      exact absurd hl (List.not_mem_nil l)
    · intro f hf
      exact absurd hf (List.not_mem_nil f)
  · rw [if_neg hemp]
    have hinv := setLinks_fold_invariant (setDefaultRightsUri dsn dru) hD ls []
      ([], [])
      (by intro f hf; exact absurd hf (List.not_mem_nil f))
      (by intro l hl; exact absurd hl (List.not_mem_nil l))
    refine ⟨?_, ?_, ?_⟩
    · rw [setLinks_fold_fst]
      rfl
    · intro l hl hg
      exact hinv.2 l (by simpa using hl) hg
    · intro f hf
      obtain ⟨l0, hg0, hl0, hc0, hd0, hr0, hf0⟩ := hinv.1 f hf
      exact ⟨l0, hg0, hl0, hc0, hd0, hr0, by simpa using hf0⟩

/-- Witness for C3 (end-to-end scenario 3): an open-access-download link
with a generic open-access rights URI, mixed with a metadata-only image
link, yields exactly one format for the book href. -/
theorem c3_links_and_formats_witness :
    ((CirculationData.linksAndFormatsOfNew (some "TEST") none
        (some [{ rel := Hyperlink.OPEN_ACCESS_DOWNLOAD,
                 href := some "http://x/book.epub",
                 media_type := some "application/epub+zip",
                 rights_uri := some RightsStatus.GENERIC_OPEN_ACCESS },
               { rel := Hyperlink.IMAGE,
                 href := some "http://x/cover.png" }])).2).countP
      (hrefMatches (some "http://x/book.epub")) = 1 :=
  (c3_links_and_formats (some "TEST") none _).2.1
    { rel := Hyperlink.OPEN_ACCESS_DOWNLOAD,
      href := some "http://x/book.epub",
      media_type := some "application/epub+zip",
      rights_uri := some RightsStatus.GENERIC_OPEN_ACCESS }
    (by decide) (by decide)

theorem newSubjects_aux (subjects : List SubjectData) :
    ∀ d : List SubjectData, d.Nodup →
      (subjects.foldl (fun d s => if d.contains s then d else d ++ [s]) d).Nodup
      ∧ ∀ s, (s ∈ subjects.foldl
            (fun d s => if d.contains s then d else d ++ [s]) d
          ↔ s ∈ d ∨ s ∈ subjects) := by
  induction subjects with
  | nil =>
    intro d hd
    simpa using hd
  | cons a rest ih =>
    intro d hd
    rw [List.foldl_cons]
    by_cases hc : d.contains a = true
    · rw [if_pos hc]
      obtain ⟨h1, h2⟩ := ih d hd
      refine ⟨h1, ?_⟩
      intro s
      rw [h2 s]
      have ha : a ∈ d := by simpa using hc
      constructor
      · rintro (h | h)
        · exact Or.inl h
        · exact Or.inr (List.mem_cons_of_mem _ h)
      · rintro (h | h)
        · exact Or.inl h
        · rcases List.mem_cons.mp h with rfl | h
          · exact Or.inl ha
          · exact Or.inr h
    · rw [if_neg hc]
      have hna : ¬ a ∈ d := by simpa using hc
      have hd2 : (d ++ [a]).Nodup := by simp [List.nodup_append, hd, hna]
      obtain ⟨h1, h2⟩ := ih (d ++ [a]) hd2
      refine ⟨h1, ?_⟩
      intro s
      rw [h2 s]
      simp only [List.mem_append, List.mem_cons, List.mem_singleton]
      tauto

theorem newSubjects_nodup (subjects : List SubjectData) :
    (newSubjects subjects).Nodup :=
  (newSubjects_aux subjects [] List.nodup_nil).1

theorem newSubjects_mem (subjects : List SubjectData) (s : SubjectData) :
    s ∈ newSubjects subjects ↔ s ∈ subjects := by
  rw [newSubjects, (newSubjects_aux subjects [] List.nodup_nil).2 s]
  simp

theorem countP_enumFrom {α : Type} (q : α → Bool) :
    ∀ (l : List α) (n : Nat),
      (l.enumFrom n).countP (fun p => q p.2) = l.countP q := by
  intro l
  induction l with
  | nil => intro n; rfl
  | cons a rest ih =>
    intro n
    rw [List.enumFrom, List.countP_cons, List.countP_cons, ih]

theorem sameSourceSubjects_append (ds : String) (P Q : List Classification) :
    sameSourceSubjects ds (P ++ Q)
      = sameSourceSubjects ds P ++ sameSourceSubjects ds Q := by
  rw [sameSourceSubjects, List.filter_append, List.map_append]
  rfl

theorem contains_eq_decide {α : Type} [DecidableEq α] [BEq α] [LawfulBEq α]
    (l : List α) (a : α) : l.contains a = decide (a ∈ l) := by
  cases hc : l.contains a with
  | true =>
    have : a ∈ l := by simpa using hc
    simp [this]
  | false =>
    have : ¬ a ∈ l := by simpa using hc
    simp [this]

theorem beq_eq_decide {α : Type} [DecidableEq α] [BEq α] [LawfulBEq α]
    (a b : α) : (a == b) = decide (a = b) := by
  by_cases h : a = b <;> simp [h]

theorem subjectStep_eq (ds : String) (d0 : List SubjectData)
    (P : List Classification) (c : Classification)
    (hnd : (sameSourceSubjects ds (P ++ [c])).Nodup) :
    subjectStep ds
      (P.filter (survivingCond ds d0),
       d0.filter (fun s => !(sameSourceSubjects ds P).contains s)) c
    = ((P ++ [c]).filter (survivingCond ds d0),
       d0.filter (fun s => !(sameSourceSubjects ds (P ++ [c])).contains s)) := by
  rw [subjectStep]
  by_cases hsame : c.dataSourceName = ds
  · have hss : sameSourceSubjects ds (P ++ [c])
        = sameSourceSubjects ds P ++ [c.subjectData] := by
      rw [sameSourceSubjects_append]
      congr 1
      simp [sameSourceSubjects, List.filter, hsame]
    rw [if_pos hsame]
    by_cases hin : (d0.filter
        (fun s => !(sameSourceSubjects ds P).contains s)).contains
          c.subjectData = true
    · rw [if_pos hin]
      have hmemf : c.subjectData ∈ d0.filter
          (fun s => !(sameSourceSubjects ds P).contains s) := by simpa using hin
      have hx1 : c.subjectData ∈ d0 := (List.mem_filter.mp hmemf).1
      have e1 : P.filter (survivingCond ds d0) ++ [c]
          = (P ++ [c]).filter (survivingCond ds d0) := by
        rw [List.filter_append]
        congr 1
        have hcond : survivingCond ds d0 c = true := by
          simp [survivingCond, hx1]
        simp [List.filter, hcond]
      have e2 : (d0.filter
            (fun s => !(sameSourceSubjects ds P).contains s)).filter
              (fun s => !(s == c.subjectData))
          = d0.filter
              (fun s => !(sameSourceSubjects ds (P ++ [c])).contains s) := by
        rw [List.filter_filter, hss]
        apply List.filter_congr
        intro s hs
        rw [contains_eq_decide, contains_eq_decide, beq_eq_decide]
        by_cases h1 : s ∈ sameSourceSubjects ds P <;>
          by_cases h2 : s = c.subjectData <;>
            simp [h1, h2, List.mem_append]
      rw [Prod.mk.injEq]
      exact ⟨e1, e2⟩
    · rw [if_neg hin]
      have hx : ¬ c.subjectData ∈ d0 := by
        intro hmem
        by_cases hps : c.subjectData ∈ sameSourceSubjects ds P
        · rw [hss] at hnd
          rcases List.nodup_append.mp hnd with ⟨-, -, hdisj⟩
          exact hdisj hps (by simp)
        · apply hin
          have hmemf : c.subjectData ∈ d0.filter
              (fun s => !(sameSourceSubjects ds P).contains s) :=
            List.mem_filter.mpr ⟨hmem, by simpa using hps⟩
          simpa using hmemf
      have e1 : P.filter (survivingCond ds d0)
          = (P ++ [c]).filter (survivingCond ds d0) := by
        rw [List.filter_append]
        have hcond : survivingCond ds d0 c = false := by
          simp [survivingCond, hsame, hx]
        simp [List.filter, hcond]
      have e2 : d0.filter (fun s => !(sameSourceSubjects ds P).contains s)
          = d0.filter
              (fun s => !(sameSourceSubjects ds (P ++ [c])).contains s) := by
        rw [hss]
        apply List.filter_congr
        intro s hs
        rw [contains_eq_decide, contains_eq_decide]
        have hne2 : s ≠ c.subjectData := fun hcontra => hx (hcontra ▸ hs)
        by_cases h1 : s ∈ sameSourceSubjects ds P <;>
          simp [h1, hne2, List.mem_append]
      rw [Prod.mk.injEq]
      exact ⟨e1, e2⟩
  · rw [if_neg hsame]
    have hss : sameSourceSubjects ds (P ++ [c]) = sameSourceSubjects ds P := by
      rw [sameSourceSubjects_append]
      have hnil : sameSourceSubjects ds [c] = [] := by
        simp [sameSourceSubjects, List.filter, hsame]
      rw [hnil, List.append_nil]
    have e1 : P.filter (survivingCond ds d0) ++ [c]
        = (P ++ [c]).filter (survivingCond ds d0) := by
      rw [List.filter_append]
      congr 1
      have hcond : survivingCond ds d0 c = true := by
        simp [survivingCond, hsame]
      simp [List.filter, hcond]
    rw [Prod.mk.injEq]
    exact ⟨e1, by rw [hss]⟩

theorem subjectFold_eq (ds : String) (d0 : List SubjectData) :
    ∀ (cls P : List Classification),
    (sameSourceSubjects ds (P ++ cls)).Nodup →
    cls.foldl (subjectStep ds)
      (P.filter (survivingCond ds d0),
       d0.filter (fun s => !(sameSourceSubjects ds P).contains s))
      = ((P ++ cls).filter (survivingCond ds d0),
         d0.filter (fun s =>
            !(sameSourceSubjects ds (P ++ cls)).contains s)) := by
  intro cls
  induction cls with
  | nil =>
    intro P hnd
    simp
  | cons c cls ih =>
    intro P hnd
    rw [List.foldl_cons]
    have hnd1 : (sameSourceSubjects ds (P ++ [c])).Nodup := by
      have hsub : sameSourceSubjects ds (P ++ [c]) ++ sameSourceSubjects ds cls
          = sameSourceSubjects ds (P ++ c :: cls) := by
        rw [← sameSourceSubjects_append]
        congr 1
        rw [List.append_assoc]
        rfl
      have : (sameSourceSubjects ds (P ++ [c])
          ++ sameSourceSubjects ds cls).Nodup := by
        rw [hsub]
        exact hnd
      exact (List.nodup_append.mp this).1
    rw [subjectStep_eq ds d0 P c hnd1]
    have hrec := ih (P ++ [c]) (by
      rw [List.append_assoc]
      simpa using hnd)
    rw [List.append_assoc] at hrec
    simpa using hrec

theorem applySubjects_eq (ds : String) (subjects : List SubjectData)
    (cls : List Classification) (freshId : Nat)
    (hnd : (sameSourceSubjects ds cls).Nodup) :
    Metadata.applySubjects ds subjects true cls freshId
      = cls.filter (survivingCond ds (newSubjects subjects))
        ++ (((newSubjects subjects).filter (fun s =>
              !(sameSourceSubjects ds cls).contains s)).enum.map
            (fun p => classify ds p.2 (freshId + p.1))) := by
  rw [Metadata.applySubjects, if_pos rfl]
  have h0 := subjectFold_eq ds (newSubjects subjects) cls []
    (by simpa using hnd)
  simp only [List.nil_append] at h0
  have hinit : (([] : List Classification), newSubjects subjects)
      = (([] : List Classification).filter
          (survivingCond ds (newSubjects subjects)),
        (newSubjects subjects).filter (fun s =>
          !(sameSourceSubjects ds ([] : List Classification)).contains s)) := by
    rw [Prod.mk.injEq]
    constructor
    · rfl
    · symm
      apply List.filter_eq_self.mpr
      intro s hs
      simp [sameSourceSubjects]
  rw [hinit, h0]

theorem subjectData_classify (ds : String) (s : SubjectData) (i : Nat) :
    Classification.subjectData (classify ds s i) = s := rfl

theorem snd_mem_of_mem_enumFrom {α : Type} :
    ∀ (l : List α) (n : Nat) (p : Nat × α), p ∈ l.enumFrom n → p.2 ∈ l := by
  intro l
  induction l with
  | nil => intro n p hp; exact absurd hp (List.not_mem_nil p)
  | cons a rest ih =>
    intro n p hp
    rw [List.enumFrom] at hp
    rcases List.mem_cons.mp hp with rfl | hp2
    · exact List.mem_cons_self _ _
    · exact List.mem_cons_of_mem _ (ih (n + 1) p hp2)

theorem count_eq_countP_map {α β : Type} [DecidableEq β] [BEq β] [LawfulBEq β]
    (l : List α) (f : α → β) (b : β) :
    (l.map f).count b = l.countP (fun a => f a == b) := by
  rw [List.count, List.countP_map]
  rfl

theorem countP_congr_eq {α : Type} {p q : α → Bool} {l : List α}
    (h : ∀ a ∈ l, p a = q a) : l.countP p = l.countP q :=
  List.countP_congr (fun a ha => by rw [h a ha])

/-- C4: the subject portion of `Metadata.apply` under `policy.subjects`,
for an identifier whose same-source classifications have pairwise distinct
keys (the state the merge itself produces): classifications from other
data sources are untouched; every same-source classification whose key is
among the incoming subjects survives as the very same row (not
rewritten); every same-source classification whose key is absent from the
incoming subjects is deleted; and for each subject key the result carries
exactly one same-source classification — in particular supplying the same
subject twice in one record yields one classification, not two. -/
theorem c4_subject_replacement (ds : String) (subjects : List SubjectData)
    (cls : List Classification) (freshId : Nat)
    (hnd : (sameSourceSubjects ds cls).Nodup) :
    ((Metadata.applySubjects ds subjects true cls freshId).filter
        (fun c => !decide (c.dataSourceName = ds))
      = cls.filter (fun c => !decide (c.dataSourceName = ds))) ∧
    (∀ c ∈ cls, c.dataSourceName = ds → c.subjectData ∈ subjects →
      c ∈ Metadata.applySubjects ds subjects true cls freshId) ∧
    (∀ c ∈ cls, c.dataSourceName = ds → ¬ c.subjectData ∈ subjects →
      ¬ c ∈ Metadata.applySubjects ds subjects true cls freshId) ∧
    (∀ s : SubjectData,
      (Metadata.applySubjects ds subjects true cls freshId).countP
        (fun c => decide (c.dataSourceName = ds) && (c.subjectData == s))
      = if s ∈ subjects then 1 else 0) := by
  rw [applySubjects_eq ds subjects cls freshId hnd]
  refine ⟨?_, ?_, ?_, ?_⟩
  · rw [List.filter_append]
    have happ : (((newSubjects subjects).filter (fun s =>
          !(sameSourceSubjects ds cls).contains s)).enum.map
          (fun p => classify ds p.2 (freshId + p.1))).filter
        (fun c => !decide (c.dataSourceName = ds)) = [] := by
      rw [List.filter_eq_nil_iff]
      intro c hc
      obtain ⟨p, -, rfl⟩ := List.mem_map.mp hc
      simp [classify]
    rw [happ, List.append_nil, List.filter_filter]
    apply List.filter_congr
    intro c hc
    by_cases h : c.dataSourceName = ds <;> simp [survivingCond, h]
  · intro c hc hsame hmem
    apply List.mem_append_left
    apply List.mem_filter.mpr
    refine ⟨hc, ?_⟩
    have : c.subjectData ∈ newSubjects subjects :=
      (newSubjects_mem subjects c.subjectData).mpr hmem
    simp [survivingCond, this]
  · intro c hc hsame hmem hcontra
    rcases List.mem_append.mp hcontra with hmem1 | hmem2
    · have hcond := (List.mem_filter.mp hmem1).2
      rw [survivingCond] at hcond
      simp only [hsame, decide_True, Bool.not_true, Bool.false_or] at hcond
      exact hmem ((newSubjects_mem subjects c.subjectData).mp (by simpa using hcond))
    · obtain ⟨p, hp, heq⟩ := List.mem_map.mp hmem2
      have hx : c.subjectData = p.2 := by rw [← heq, subjectData_classify]
      have hp2 : p.2 ∈ (newSubjects subjects).filter (fun s =>
          !(sameSourceSubjects ds cls).contains s) := by
        rw [List.enum] at hp
        exact snd_mem_of_mem_enumFrom _ 0 p hp
      have hmem3 : p.2 ∈ newSubjects subjects := (List.mem_filter.mp hp2).1
      apply hmem
      rw [hx]
      exact (newSubjects_mem subjects p.2).mp hmem3
  · intro s
    rw [List.countP_append]
    have hA : (cls.filter (survivingCond ds (newSubjects subjects))).countP
        (fun c => decide (c.dataSourceName = ds) && (c.subjectData == s))
        = if (newSubjects subjects).contains s = true
          then (sameSourceSubjects ds cls).count s else 0 := by
      rw [List.countP_filter]
      have hcongr : ∀ c ∈ cls,
          ((decide (c.dataSourceName = ds) && (c.subjectData == s))
            && survivingCond ds (newSubjects subjects) c)
          = ((decide (c.dataSourceName = ds) && (c.subjectData == s))
            && (newSubjects subjects).contains s) := by
        intro c hc
        by_cases h1 : c.dataSourceName = ds
        · by_cases h2 : c.subjectData = s
          · rw [survivingCond, h2]
            simp [h1, h2]
          · rw [beq_eq_decide]
            simp [h2]
        · simp [h1]
      rw [countP_congr_eq hcongr]
      by_cases hk : (newSubjects subjects).contains s = true
      · rw [if_pos hk]
        have hdrop : ∀ c : Classification, ((decide (c.dataSourceName = ds)
              && (c.subjectData == s)) && (newSubjects subjects).contains s)
            = (decide (c.dataSourceName = ds) && (c.subjectData == s)) := by
          intro c
          rw [hk, Bool.and_true]
        rw [countP_congr_eq (fun c _ => hdrop c)]
        rw [sameSourceSubjects, count_eq_countP_map, List.countP_filter]
        apply countP_congr_eq
        intro c hc
        rw [Bool.and_comm]
      · rw [if_neg hk]
        have hk0 : (newSubjects subjects).contains s = false := by
          cases hv : (newSubjects subjects).contains s with
          | true => exact absurd hv hk
          | false => rfl
        rw [List.countP_eq_zero]
        intro c hc
        rw [hk0, Bool.and_false]
        simp
    have hB : (((newSubjects subjects).filter
          (fun t => !(sameSourceSubjects ds cls).contains t)).enum.map
          (fun p => classify ds p.2 (freshId + p.1))).countP
        (fun c => decide (c.dataSourceName = ds) && (c.subjectData == s))
        = ((newSubjects subjects).filter
            (fun t => !(sameSourceSubjects ds cls).contains t)).count s := by
      rw [List.countP_map]
      have hcg : ∀ p ∈ ((newSubjects subjects).filter
            (fun t => !(sameSourceSubjects ds cls).contains t)).enum,
          ((fun c => decide (c.dataSourceName = ds) && (c.subjectData == s))
            ∘ (fun p => classify ds p.2 (freshId + p.1))) p
          = (fun q : Nat × SubjectData => q.2 == s) p := by
        intro p hp
        show (decide (ds = ds)
          && (Classification.subjectData (classify ds p.2 (freshId + p.1)) == s))
          = (p.2 == s)
        rw [subjectData_classify]
        simp
      rw [countP_congr_eq hcg, List.enum]
      exact countP_enumFrom (fun t => t == s) _ 0
    rw [hA, hB]
    by_cases hs : s ∈ subjects
    · have hd0 : s ∈ newSubjects subjects := (newSubjects_mem _ s).mpr hs
      have hk : (newSubjects subjects).contains s = true := by simpa using hd0
      rw [if_pos hk, if_pos hs]
      by_cases hss : s ∈ sameSourceSubjects ds cls
      · rw [List.count_eq_one_of_mem hnd hss]
        have hnF : ¬ s ∈ (newSubjects subjects).filter
            (fun t => !(sameSourceSubjects ds cls).contains t) := by
          intro hmF
          have h2 := (List.mem_filter.mp hmF).2
          simp [hss] at h2
        rw [List.count_eq_zero_of_not_mem hnF]
      · rw [List.count_eq_zero_of_not_mem hss, Nat.zero_add]
        have hmF : s ∈ (newSubjects subjects).filter
            (fun t => !(sameSourceSubjects ds cls).contains t) :=
          List.mem_filter.mpr ⟨hd0, by simpa using hss⟩
        rw [List.count_eq_one_of_mem
          ((newSubjects_nodup subjects).filter _) hmF]
    · have hd0 : ¬ s ∈ newSubjects subjects :=
        fun hc => hs ((newSubjects_mem _ s).mp hc)
      have hk : ¬ (newSubjects subjects).contains s = true := by simpa using hd0
      rw [if_neg hk, if_neg hs]
      have hnF : ¬ s ∈ (newSubjects subjects).filter
          (fun t => !(sameSourceSubjects ds cls).contains t) :=
        fun hmF => hd0 (List.mem_filter.mp hmF).1
      rw [List.count_eq_zero_of_not_mem hnF]

/-- Witness for C4 (end-to-end scenario 4): feeding the subject
(tag, fiction, weight 100) twice in one record under replace policy yields
exactly one classification. -/
theorem c4_subject_replacement_witness :
    (Metadata.applySubjects "TEST"
        [(⟨some "tag", some "fiction", none, 100⟩ : SubjectData),
         (⟨some "tag", some "fiction", none, 100⟩ : SubjectData)]
        true [] 0).countP
      (fun c => decide (c.dataSourceName = "TEST")
        && (c.subjectData == (⟨some "tag", some "fiction", none, 100⟩ : SubjectData)))
      = 1 := by
  have h := (c4_subject_replacement "TEST"
    [(⟨some "tag", some "fiction", none, 100⟩ : SubjectData),
     (⟨some "tag", some "fiction", none, 100⟩ : SubjectData)] [] 0
    (by simp [sameSourceSubjects])).2.2.2
    (⟨some "tag", some "fiction", none, 100⟩ : SubjectData)
  simpa using h

end Claims

end ServerCore
